import Mathlib

/-!
Shallow embedding of the openscreen network-address core:
`platform/base/ip_address.{h,cc}` (value types, parsing, formatting,
ordering), the POSIX socket-address adapter
(`platform/impl/socket_address_posix.cc`) and the BSD interface
enumerator (`ToPrefixLength`, `ProcessInterfacesList`,
`GetNetworkInterfaces`).

Strings are modelled as `List Char`, machine bytes as `Nat` with `< 256`
side conditions, `uint16_t`/`uint32_t` values as `Nat` with explicit
bounds, and fatal checks (`OSP_CHECK`, `OSP_NOTREACHED`) as `Option`
(`none` = process abort).  OS lookups (`if_nametoindex`,
`if_indextoname`, `ioctl` media / v6-flag queries, `getifaddrs`) are
passed in explicitly as environment values, since the C++ behaviour is a
function of the OS state.
-/

/-- `std::from_chars` digit classification for bases 10 and 16 (hex accepts
both lower and upper case, as `from_chars` does). -/
def digitVal (base : Nat) (c : Char) : Option Nat :=
  if 48 ≤ c.toNat ∧ c.toNat ≤ 57 ∧ c.toNat - 48 < base then some (c.toNat - 48)
  else if base = 16 ∧ 97 ≤ c.toNat ∧ c.toNat ≤ 102 then some (c.toNat - 87)
  else if base = 16 ∧ 65 ≤ c.toNat ∧ c.toNat ≤ 70 then some (c.toNat - 55)
  else none

/-- The maximal run of digits at the head of `s` (as digit values), together
with the unconsumed remainder; this is the region `std::from_chars` scans. -/
def leadDigits (base : Nat) : List Char → List Nat × List Char
  | c :: rest =>
    match digitVal base c with
    | some d => let p := leadDigits base rest; (d :: p.1, p.2)
    | none => ([], c :: rest)
  | [] => ([], [])

/-- Value of a digit list, most significant first. -/
def digitsVal (base : Nat) (ds : List Nat) : Nat :=
  ds.foldl (fun a d => a * base + d) 0

/-- `std::from_chars` into an unsigned integer type with maximum `maxVal`:
no digits → error; overflow → error (the callers only test `ec`, and test
`ptr == end` only on success, so the error remainder is never observed). -/
def fromCharsNat (base maxVal : Nat) (s : List Char) : Option (Nat × List Char) :=
  let p := leadDigits base s
  if p.1 = [] then none
  else if digitsVal base p.1 ≤ maxVal then some (digitsVal base p.1, p.2) else none

/-- `std::from_chars` into (32-bit) `int`: an optional leading minus sign,
then decimal digits, overflow checked against the `int` range. -/
def fromCharsInt (s : List Char) : Option (Int × List Char) :=
  match s with
  | [] => none
  | c :: rest =>
    if c = '-' then
      let p := leadDigits 10 rest
      if p.1 = [] then none
      else if digitsVal 10 p.1 ≤ 2147483648 then
        some (-(digitsVal 10 p.1 : Int), p.2)
      else none
    else
      let p := leadDigits 10 (c :: rest)
      if p.1 = [] then none
      else if digitsVal 10 p.1 ≤ 2147483647 then
        some ((digitsVal 10 p.1 : Int), p.2)
      else none

def expectChar (c : Char) : List Char → Option (List Char)
  | x :: rest => if x = c then some rest else none
  | [] => none

def listFlat (f : α → List β) : List α → List β
  | [] => []
  | x :: xs => f x ++ listFlat f xs

/-- Fuel-based digit expansion (structural recursion, so it evaluates by
kernel reduction); with `fuel ≥ n` and `base ≥ 2` the fuel never runs out. -/
def digitsGo (base : Nat) : Nat → Nat → List Nat
  | 0, n => [n]
  | fuel + 1, n => if n < base then [n] else digitsGo base fuel (n / base) ++ [n % base]

/-- Decimal digits of `n`, most significant first (what `operator<<` with
`std::dec` prints). -/
def natDigits10 (n : Nat) : List Nat := digitsGo 10 n n

/-- Hexadecimal digits of `n`, most significant first (what `operator<<`
with `std::hex` prints). -/
def natDigits16 (n : Nat) : List Nat := digitsGo 16 n n

/-- Lowercase digit character, for both decimal and hex rendering. -/
def digitToChar (d : Nat) : Char :=
  if d < 10 then Char.ofNat (48 + d) else Char.ofNat (87 + d)

def renderDec (n : Nat) : List Char := (natDigits10 n).map digitToChar

def renderHex (n : Nat) : List Char := (natDigits16 n).map digitToChar

/-- Hex rendering padded to width 2 with `'0'` fill
(`std::setw(2)` + `std::setfill('0')`). -/
def hexPad2 (b : Nat) : List Char :=
  if (renderHex b).length = 1 then '0' :: renderHex b else renderHex b

/-- `IPAddress::Version`: `kV4 < kV6` as enum values. -/
inductive Version where
  | v4
  | v6
deriving DecidableEq

def versionLt : Version → Version → Bool
  | .v4, .v6 => true
  | _, _ => false

/-- `IPAddress`: version discriminant, the 16-byte storage array (only the
first `size()` bytes are meaningful; every construction path in this model
zero-fills the tail, which the C++ leaves indeterminate but never reads),
and the scope id. -/
structure IPAddress where
  version : Version
  bytes : List Nat
  scope_id : Nat
deriving DecidableEq

def IPAddress.size (a : IPAddress) : Nat :=
  match a.version with
  | .v4 => 4
  | .v6 => 16

def IPAddress.IsV4 (a : IPAddress) : Bool := decide (a.version = .v4)

def IPAddress.IsV6 (a : IPAddress) : Bool := decide (a.version = .v6)

/-- `IPAddress::IsLinkLocal`: V6 and the address is in fe80::/10. -/
def IPAddress.IsLinkLocal (a : IPAddress) : Bool :=
  decide (a.version = .v6) && decide (a.bytes.getD 0 0 = 0xfe) &&
    decide ((a.bytes.getD 1 0) &&& 0xc0 = 0x80)

def IPAddress.GetScopeId (a : IPAddress) : Nat := a.scope_id

/-- `IPAddress::CopyTo` into a buffer of exactly `size()` bytes. -/
def IPAddress.CopyTo (a : IPAddress) : List Nat := a.bytes.take a.size

/-- `IPAddress::operator==`: same version, first `size()` bytes equal
(`std::equal` over `size()` positions of both buffers), same scope id. -/
def IPAddress.eqOp (a b : IPAddress) : Bool :=
  decide (a.version = b.version) &&
    decide (a.bytes.take a.size = b.bytes.take a.size) &&
    decide (a.scope_id = b.scope_id)

/-- Three-way comparison of equally long byte lists, as `memcmp` over
unsigned bytes. -/
def listOrd : List Nat → List Nat → Ordering
  | a :: as_, b :: bs =>
    if a < b then .lt else if b < a then .gt else listOrd as_ bs
  | _, _ => .eq

/-- `IPAddress::operator<`: version first (V4 < V6), then `memcmp` over the
meaningful bytes, then (V6 only) the scope id. -/
def IPAddress.ltOp (a b : IPAddress) : Bool :=
  if a.version ≠ b.version then versionLt a.version b.version
  else
    match a.version with
    | .v4 => decide (listOrd (a.bytes.take 4) (b.bytes.take 4) = .lt)
    | .v6 =>
      match listOrd (a.bytes.take 16) (b.bytes.take 16) with
      | .lt => true
      | .gt => false
      | .eq => decide (a.scope_id < b.scope_id)

/-- `IPAddress(uint8_t, uint8_t, uint8_t, uint8_t)`: the V4 constructor;
aggregate initialization zero-fills the 12 trailing bytes. -/
def mkV4 (b1 b2 b3 b4 : Nat) : IPAddress :=
  ⟨.v4, [b1, b2, b3, b4] ++ List.replicate 12 0, 0⟩

/-- The V6 constructor from 8 hextets: each hextet `h` contributes bytes
`h >> 8` and `h & 0xff` (big-endian), scope id 0. -/
def mkV6FromHextets (hs : List Nat) : IPAddress :=
  ⟨.v6, listFlat (fun h => [h / 256 % 256, h % 256]) hs, 0⟩

/-- The V6 constructor `IPAddress(span<const uint8_t, 16>, uint32_t)`:
copies 16 bytes and stores the given scope id without any check. -/
def IPAddress.ofBytesScope (bytes : List Nat) (sid : Nat) : IPAddress :=
  ⟨.v6, bytes.take 16, sid⟩

/-- `IPEndpoint`. -/
structure IPEndpoint where
  address : IPAddress
  port : Nat
deriving DecidableEq

/-- `operator==(IPEndpoint, IPEndpoint)`. -/
def IPEndpoint.eqOp (a b : IPEndpoint) : Bool :=
  a.address.eqOp b.address && decide (a.port = b.port)

/-- The OS interface table seen by `if_nametoindex` / `if_indextoname`:
a list of (name, index) pairs. -/
structure OsEnv where
  ifaces : List (List Char × Nat)

/-- `if_nametoindex`: 0 when the name does not resolve. -/
def if_nametoindex (os : OsEnv) (name : List Char) : Nat :=
  match os.ifaces.find? (fun p => decide (p.1 = name)) with
  | some p => p.2
  | none => 0

/-- `if_indextoname`: `none` when the index does not resolve. -/
def if_indextoname (os : OsEnv) (i : Nat) : Option (List Char) :=
  (os.ifaces.find? (fun p => decide (p.2 = i))).map (fun p => p.1)

/-- Sanity conditions on the OS interface table assumed by the string-level
theorems: interface names contain no ':' and no whitespace. -/
@[reducible]
def WFos (os : OsEnv) : Prop :=
  ∀ p ∈ os.ifaces, ∀ c ∈ p.1, c ≠ ':' ∧ c.isWhitespace = false

/-- Well-formed `IPAddress` values (the shapes every C++ construction path
produces): full 16-byte storage, byte-bounded entries, and a V4 address
never carries a scope id. -/
@[reducible]
def WFAddr (a : IPAddress) : Prop :=
  a.bytes.length = 16 ∧ (∀ b ∈ a.bytes, b < 256) ∧ (a.version = .v4 → a.scope_id = 0)

/-- First index at which the two-character pattern `::` occurs
(`std::string_view::find("::")`). -/
def findDC : List Char → Option Nat
  | a :: rest =>
    if a = ':' ∧ rest.head? = some ':' then some 0
    else (findDC rest).map (· + 1)
  | [] => none

/-- Last index at which `::` occurs (`std::string_view::rfind("::")`). -/
def rfindDC : List Char → Option Nat
  | a :: rest =>
    match rfindDC rest with
    | some j => some (j + 1)
    | none => if a = ':' ∧ rest.head? = some ':' then some 0 else none
  | [] => none

/-- First index of character `c` (`find(c)`). -/
def findCharIdx (c : Char) : List Char → Option Nat
  | a :: rest => if a = c then some 0 else (findCharIdx c rest).map (· + 1)
  | [] => none

/-- Last index of character `c` (`rfind(c)`). -/
def rfindCharIdx (c : Char) : List Char → Option Nat
  | a :: rest =>
    match rfindCharIdx c rest with
    | some j => some (j + 1)
    | none => if a = c then some 0 else none
  | [] => none

/-- The zero-group block the expander emits: `"0:"` written `n - 1` times
by `while (--n > 0)`, then a final `'0'`. -/
def zeroGroups (n : Int) : List Char :=
  listFlat (fun _ => ['0', ':']) (List.range (n - 1).toNat) ++ ['0']

/-- `ExpandIPv6DoubleColon`, including the `int` arithmetic on the number of
zero groups to insert (which may go negative for over-long inputs). -/
def ExpandIPv6DoubleColon (s : List Char) : List Char :=
  match findDC s with
  | none => s
  | some p =>
    if rfindDC s ≠ some p then []
    else
      let numSingle : Int := (s.count ':' : Int) - 2
      let n0 : Int := 8 - numSingle
      let n1 : Int := if p ≠ 0 then n0 - 1 else n0
      let n2 : Int := if p ≠ s.length - 2 then n1 - 1 else n1
      (if p ≠ 0 then s.take (p + 1) else []) ++ zeroGroups n2 ++
        (if p ≠ s.length - 2 then s.drop (p + 1) else [])

/-- The octet loop of `ParseV4`: four `uint8_t` `from_chars` reads separated
by `'.'`, with the whole input consumed. -/
def parseV4core (s : List Char) : Option (Nat × Nat × Nat × Nat) := do
  let (o0, s0) ← fromCharsNat 10 255 s
  let t0 ← expectChar '.' s0
  let (o1, s1) ← fromCharsNat 10 255 t0
  let t1 ← expectChar '.' s1
  let (o2, s2) ← fromCharsNat 10 255 t1
  let t2 ← expectChar '.' s2
  let (o3, s3) ← fromCharsNat 10 255 t2
  if s3 = [] then some (o0, o1, o2, o3) else none

def ParseV4 (s : List Char) : Option IPAddress :=
  (parseV4core s).map (fun t => mkV4 t.1 t.2.1 t.2.2.1 t.2.2.2)

/-- Iterations 1..7 of the hextet loop: each reads a `':'` then a `uint16_t`
hex `from_chars`. -/
def parseHexRest : Nat → List Char → Option (List Nat × List Char)
  | 0, s => some ([], s)
  | n + 1, s => do
    let t ← expectChar ':' s
    let (h, s1) ← fromCharsNat 16 65535 t
    let (hs, s2) ← parseHexRest n s1
    some (h :: hs, s2)

/-- The full 8-hextet loop of `ParseV6` over the expanded string, requiring
the input to be fully consumed. -/
def parseHextets (s : List Char) : Option (List Nat) := do
  let (h0, s1) ← fromCharsNat 16 65535 s
  let (hs, s2) ← parseHexRest 7 s1
  if s2 = [] then some (h0 :: hs) else none

/-- Address-part of `ParseV6`: expand the double colon, read 8 hextets,
build the `IPAddress` (scope id 0 at this point). -/
def parseV6core (s : List Char) : Option IPAddress :=
  (parseHextets (ExpandIPv6DoubleColon s)).map mkV6FromHextets

/-- Scope-id resolution in `ParseV6`: `if_nametoindex` first, then a full
`unsigned int` decimal parse requiring a positive value; 0 means failure. -/
def resolveScopeId (os : OsEnv) (name : List Char) : Nat :=
  let fromOS := if_nametoindex os name
  if fromOS ≠ 0 then fromOS
  else
    match fromCharsNat 10 4294967295 name with
    | some (v, r) => if r = [] ∧ v > 0 then v else 0
    | none => 0

/-- `ParseV6`: split at the first `'%'` if any, resolve the scope id (error
if it resolves to 0), parse the address part, and accept a non-zero scope id
only on a link-local address. -/
def ParseV6 (os : OsEnv) (s : List Char) : Option IPAddress :=
  match findCharIdx '%' s with
  | none => parseV6core s
  | some p =>
    let sid := resolveScopeId os (s.drop (p + 1))
    if sid = 0 then none
    else
      match parseV6core (s.take p) with
      | none => none
      | some a =>
        if a.IsLinkLocal then some { a with scope_id := sid } else none

/-- `IPAddress::Parse`: IPv4 grammar first, IPv6 on failure. -/
def IPAddress.Parse (os : OsEnv) (s : List Char) : Option IPAddress :=
  match ParseV4 s with
  | some a => some a
  | none => ParseV6 os s

/-- `IPEndpoint::Parse`. -/
def IPEndpoint.Parse (os : OsEnv) (s : List Char) : Option IPEndpoint :=
  match rfindCharIdx ':' s with
  | none => none
  | some p =>
    if p = 0 then none
    else if p = s.length - 1 then none
    else
      let addrOpt : Option IPAddress :=
        if s.getD 0 ' ' = '[' ∧ s.getD (p - 1) ' ' = ']' then
          ParseV6 os ((s.drop 1).take (p - 2))
        else ParseV4 (s.take p)
      match addrOpt with
      | none => none
      | some a =>
        match fromCharsInt (s.drop (p + 1)) with
        | none => none
        | some (v, r) =>
          if r = [] ∧ 0 ≤ v ∧ v ≤ 65535 then some ⟨a, v.toNat⟩ else none

/-- The byte loop of `operator<<(ostream&, const IPAddress&)`: decimal
octets joined by `'.'` for V4; two zero-padded lowercase hex digits per
byte, `':'` every two bytes, for V6. -/
def IPAddress.formatBody (a : IPAddress) : List Char :=
  listFlat
    (fun i =>
      match a.version with
      | .v4 => (if 0 < i then ['.'] else []) ++ renderDec (a.bytes.getD i 0)
      | .v6 => (if 0 < i ∧ i % 2 = 0 then [':'] else []) ++ hexPad2 (a.bytes.getD i 0))
    (List.range a.size)

/-- `operator<<(ostream&, const IPAddress&)` including the scope suffix.
Note: for V6 the stream base was set to `std::hex` and never reset, so the
numeric fallback for an unresolvable scope id is printed in hexadecimal. -/
def formatIPAddress (os : OsEnv) (a : IPAddress) : List Char :=
  a.formatBody ++
    (if a.IsLinkLocal = true ∧ a.scope_id ≠ 0 then
      '%' ::
        (match if_indextoname os a.scope_id with
        | some nm => nm
        | none => renderHex a.scope_id)
    else [])

/-- `AF_INET`. -/
def AF_INET : Nat := 2

/-- `AF_INET6`. -/
def AF_INET6 : Nat := 10

/-- `htons` on a little-endian host: byte swap of a 16-bit value. -/
def htons (p : Nat) : Nat := p % 256 * 256 + p / 256 % 256

/-- `ntohs` on a little-endian host: byte swap of a 16-bit value. -/
def ntohs (p : Nat) : Nat := p % 256 * 256 + p / 256 % 256

/-- `struct sockaddr_in` (the fields the adapter touches). -/
structure SockAddrIn where
  sin_family : Nat
  sin_port : Nat
  sin_addr : List Nat
deriving DecidableEq

/-- `struct sockaddr_in6` (the fields the adapter touches). -/
structure SockAddrIn6 where
  sin6_family : Nat
  sin6_port : Nat
  sin6_flowinfo : Nat
  sin6_addr : List Nat
  sin6_scope_id : Nat
deriving DecidableEq

/-- `ToSockAddrIn`: `OSP_CHECK(IsV4())` modelled as `none` on violation;
zero-initialized output, family, network-order port, 4 address bytes. -/
def ToSockAddrIn (e : IPEndpoint) : Option SockAddrIn :=
  if e.address.version = .v4 then
    some ⟨AF_INET, htons e.port, e.address.bytes.take 4⟩
  else none

/-- `ToSockAddrIn6`: `OSP_CHECK(IsV6())`; flow info zeroed; the scope id
field is written only for a link-local address with non-zero scope id,
else left at its zeroed value. -/
def ToSockAddrIn6 (e : IPEndpoint) : Option SockAddrIn6 :=
  if e.address.version = .v6 then
    some ⟨AF_INET6, htons e.port, 0, e.address.bytes.take 16,
      if e.address.IsLinkLocal = true ∧ e.address.GetScopeId ≠ 0 then
        e.address.GetScopeId
      else 0⟩
  else none

/-- `GetIPAddressFromSockAddr(sockaddr_in)`: 4 bytes of `sin_addr`; the
unread tail of the storage array is modelled as zero. -/
def GetIPAddressFromSockAddrIn (sa : SockAddrIn) : IPAddress :=
  ⟨.v4, sa.sin_addr.take 4 ++ List.replicate 12 0, 0⟩

/-- `GetIPAddressFromSockAddr(sockaddr_in6)`: 16 bytes of `sin6_addr` plus
the embedded scope id, carried over without any check. -/
def GetIPAddressFromSockAddrIn6 (sa : SockAddrIn6) : IPAddress :=
  ⟨.v6, sa.sin6_addr.take 16, sa.sin6_scope_id⟩

/-- `SocketAddressPosix::RecomputeEndpoint` for the V4 shape. -/
def RecomputeEndpointV4 (sa : SockAddrIn) : IPEndpoint :=
  ⟨GetIPAddressFromSockAddrIn sa, ntohs sa.sin_port⟩

/-- `SocketAddressPosix::RecomputeEndpoint` for the V6 shape. -/
def RecomputeEndpointV6 (sa : SockAddrIn6) : IPEndpoint :=
  ⟨GetIPAddressFromSockAddrIn6 sa, ntohs sa.sin6_port⟩

/-- Big-endian value of a byte list (what `memcmp` order corresponds to). -/
def bytesToNat (l : List Nat) : Nat := l.foldl (fun a b => a * 256 + b) 0

/-- The bit loop inside `ToPrefixLength`: counts leading one-bits of a byte,
shifting left through `uint8_t` (mod 256); returns the count and the
residual byte value when the top bit first clears. -/
def leadOnesStep : Nat → Nat → Nat × Nat
  | 0, b => (0, b)
  | fuel + 1, b =>
    if b &&& 0x80 ≠ 0 then
      let p := leadOnesStep fuel (b * 2 % 256)
      (p.1 + 1, p.2)
    else (0, b)

/-- The first loop of `ToPrefixLength`: strip the maximal `0xff` run,
returning 8 bits per byte and the remainder of the mask. -/
def tplFF : List Nat → Nat × List Nat
  | [] => (0, [])
  | b :: rest =>
    if b = 255 then let p := tplFF rest; (p.1 + 8, p.2) else (0, b :: rest)

/-- The middle-byte and trailing-zeros phases of `ToPrefixLength`; the
`OSP_CHECK`s are modelled as `none`. -/
def tplMid : List Nat → Option Nat
  | [] => some 0
  | b :: rest =>
    if b = 0 then
      if rest.all (fun x => decide (x = 0)) then some 0 else none
    else
      let p := leadOnesStep 8 b
      if p.2 ≠ 0 then none
      else if rest.all (fun x => decide (x = 0)) then some p.1 else none

/-- `ToPrefixLength`: number of contiguous leading one-bits of a canonical
netmask; `none` models the fatal `OSP_CHECK` on a mask with a hole. -/
def ToPrefixLength (netmask : List Nat) : Option Nat :=
  (tplMid (tplFF netmask).2).map (fun c => (tplFF netmask).1 + c)

/-- `InterfaceInfo::Type`. -/
inductive IfType where
  | kWifi
  | kEthernet
  | kLoopback
  | kOther
deriving DecidableEq

/-- `InterfaceInfo`: `addresses` models the `IPSubnet` list as
(address, prefix length) pairs. -/
structure InterfaceInfo where
  index : Nat
  hardware_address : List Nat
  name : List Char
  type : IfType
  addresses : List (IPAddress × Nat)
deriving DecidableEq

/-- The address payload of one `ifaddrs` record, tagged by `sa_family`. -/
inductive IfAddr where
  | link (bytes : List Nat)
  | v4 (sa : SockAddrIn)
  | v6 (sa : SockAddrIn6)
  | other
deriving DecidableEq

/-- One `ifaddrs` record: name, the two flag bits the code reads
(`IFF_RUNNING`, `IFF_LOOPBACK`), address and netmask. -/
structure IfRecord where
  name : List Char
  running : Bool
  loopback : Bool
  addr : Option IfAddr
  netmask : Option IfAddr
deriving DecidableEq

/-- Result of the `SIOCGIFMEDIA` ioctl: the status bits and media-type bits
the code reads. -/
structure IfMedia where
  avalid : Bool
  active : Bool
  ieee80211 : Bool
  ether : Bool
deriving DecidableEq

/-- OS state consumed by the interface enumerator: the media query
(`none` = the ioctl failed), the per-address IPv6 flags query
(`none` = ioctl error, `some d` = success with deprecated-bit `d`),
and `if_nametoindex`. -/
structure OsNet where
  media : List Char → Option IfMedia
  v6flags : List Char → SockAddrIn6 → Option Bool
  nameindex : List Char → Nat

/-- Classification on first sighting of an interface name: media status
must be valid and active when available, else fall back to the loopback
flag; `none` = the interface is dropped. -/
def classifyIface (env : OsNet) (r : IfRecord) : Option IfType :=
  match env.media r.name with
  | some m =>
    if m.avalid && m.active then
      some (if m.ieee80211 then .kWifi else if m.ether then .kEthernet else .kOther)
    else none
  | none => if r.loopback then some .kLoopback else none

def findIdxByName (name : List Char) : List InterfaceInfo → Option Nat
  | [] => none
  | info :: rest =>
    if info.name = name then some 0 else (findIdxByName name rest).map (· + 1)

def updateAt (i : Nat) (f : α → α) : List α → List α
  | [] => []
  | x :: xs =>
    match i with
    | 0 => f x :: xs
    | j + 1 => x :: updateAt j f xs

/-- The V6 branch of the per-record address handling: the flags ioctl
error and the deprecated flag both skip the address; otherwise the subnet
(address, prefix length from the accompanying netmask or zeros) is
appended to the entry at index `i`. -/
def applyV6 (env : OsNet) (acc : List InterfaceInfo) (i : Nat)
    (name : List Char) (sa : SockAddrIn6) (netmask : Option IfAddr) :
    Option (List InterfaceInfo) :=
  match env.v6flags name sa with
  | none => some acc
  | some true => some acc
  | some false =>
    let ip := GetIPAddressFromSockAddrIn6 sa
    let mask : List Nat :=
      match netmask with
      | some (.v6 m) => m.sin6_addr.take 16
      | _ => List.replicate 16 0
    match ToPrefixLength mask with
    | none => none
    | some pl =>
      some (updateAt i (fun info => { info with addresses := info.addresses ++ [(ip, pl)] }) acc)

/-- The V4 branch of the per-record address handling. -/
def applyV4 (acc : List InterfaceInfo) (i : Nat) (sa : SockAddrIn)
    (netmask : Option IfAddr) : Option (List InterfaceInfo) :=
  let ip := GetIPAddressFromSockAddrIn sa
  let mask : List Nat :=
    match netmask with
    | some (.v4 m) => m.sin_addr.take 4
    | _ => List.replicate 4 0
  match ToPrefixLength mask with
  | none => none
  | some pl =>
    some (updateAt i (fun info => { info with addresses := info.addresses ++ [(ip, pl)] }) acc)

/-- Per-record address handling of `ProcessInterfacesList`, dispatching on
the record family; `none` models the fatal netmask check. -/
def applyAddr (env : OsNet) (acc : List InterfaceInfo) (i : Nat) (r : IfRecord) :
    Option (List InterfaceInfo) :=
  match r.addr with
  | some (.link bytes) =>
    some (updateAt i (fun info => { info with hardware_address := bytes }) acc)
  | some (.v6 sa) => applyV6 env acc i r.name sa r.netmask
  | some (.v4 sa) => applyV4 acc i sa r.netmask
  | some .other => some acc
  | none => some acc

/-- One iteration of the `ifaddrs` walk: skip records that are not running
or carry no address; look up or lazily create (after classification) the
`InterfaceInfo` entry; then handle the record's address. -/
def stepIface (env : OsNet) (acc : List InterfaceInfo) (r : IfRecord) :
    Option (List InterfaceInfo) :=
  if r.running = false then some acc
  else
    match r.addr with
    | none => some acc
    | some _ =>
      match findIdxByName r.name acc with
      | some i => applyAddr env acc i r
      | none =>
        match classifyIface env r with
        | none => some acc
        | some t =>
          applyAddr env
            (acc ++ [⟨env.nameindex r.name, List.replicate 6 0, r.name, t, []⟩])
            acc.length r

def processGo (env : OsNet) (acc : List InterfaceInfo) :
    List IfRecord → Option (List InterfaceInfo)
  | [] => some acc
  | r :: rest =>
    match stepIface env acc r with
    | none => none
    | some acc' => processGo env acc' rest

/-- `ProcessInterfacesList`. -/
def ProcessInterfacesList (env : OsNet) (rs : List IfRecord) :
    Option (List InterfaceInfo) :=
  processGo env [] rs

/-- `GetNetworkInterfaces`: `sys = none` models `getifaddrs` failing, in
which case the empty snapshot is returned. -/
def GetNetworkInterfaces (env : OsNet) (sys : Option (List IfRecord)) :
    Option (List InterfaceInfo) :=
  match sys with
  | none => some []
  | some rs => ProcessInterfacesList env rs

/-- The partial-byte values a canonical netmask may contain:
`midByte k` has exactly `k` leading one-bits then zeros. -/
def midByte (k : Nat) : Nat := 256 - 2 ^ (8 - k)

/-- Groups of an IPv6 textual address joined by single colons. -/
def intercColon : List (List Char) → List Char
  | [] => []
  | g :: rest => g ++ listFlat (fun h => ':' :: h) rest

/-- `::` occurs at position `p` of `s`. -/
@[reducible]
def dcAt (s : List Char) (p : Nat) : Prop :=
  s[p]? = some ':' ∧ s[p + 1]? = some ':'

/-- Numeric value of a hextet group (all characters hex digits). -/
def groupVal (g : List Char) : Nat := digitsVal 16 (g.filterMap (digitVal 16))

/-- A valid textual hextet: non-empty, hex digits only, value ≤ 0xffff. -/
@[reducible]
def validGroup (g : List Char) : Prop :=
  g ≠ [] ∧ (∀ c ∈ g, (digitVal 16 c).isSome = true) ∧ groupVal g ≤ 65535


/-! ## Helper lemmas -/

theorem ntohs_htons (p : Nat) (h : p < 65536) : ntohs (htons p) = p := by
  unfold ntohs htons
  have h2 : (p % 256 * 256 + p / 256 % 256) % 256 = p / 256 := by omega
  have h3 : (p % 256 * 256 + p / 256 % 256) / 256 = p % 256 := by omega
  rw [h2, h3]
  omega

theorem take_append_replicate_take (l : List Nat) (n m : Nat) (h : n ≤ l.length) :
    (l.take n ++ List.replicate m 0).take n = l.take n := by
  rw [List.take_append_eq_append_take, List.take_take, Nat.min_self,
    List.length_take]
  have : n - min n l.length = 0 := by omega
  rw [this]
  simp

theorem scope_update_IsLinkLocal (a : IPAddress) (n : Nat) :
    ({ a with scope_id := n } : IPAddress).IsLinkLocal = a.IsLinkLocal := rfl

theorem parseV6core_version (s : List Char) (a : IPAddress)
    (h : parseV6core s = some a) : a.version = .v6 := by
  unfold parseV6core at h
  cases hp : parseHextets (ExpandIPv6DoubleColon s) with
  | none => simp [hp] at h
  | some hs =>
    simp only [hp, Option.map_some] at h
    cases h
    rfl

theorem parseV6core_scope (s : List Char) (a : IPAddress)
    (h : parseV6core s = some a) : a.scope_id = 0 := by
  unfold parseV6core at h
  cases hp : parseHextets (ExpandIPv6DoubleColon s) with
  | none => simp [hp] at h
  | some hs =>
    simp only [hp, Option.map_some] at h
    cases h
    rfl

theorem ParseV6_scope (os : OsEnv) (s : List Char) (a : IPAddress)
    (h : ParseV6 os s = some a) :
    a.scope_id = 0 ∨ a.IsLinkLocal = true := by
  unfold ParseV6 at h
  split at h
  · exact Or.inl (parseV6core_scope _ _ h)
  · dsimp only at h
    split at h
    · exact absurd h (by simp)
    · split at h
      · exact absurd h (by simp)
      · rename_i b hb
        split at h
        · rename_i hl
          cases h
          exact Or.inr (by rw [scope_update_IsLinkLocal]; exact hl)
        · exact absurd h (by simp)

theorem ParseV4_scope (s : List Char) (a : IPAddress) (h : ParseV4 s = some a) :
    a.scope_id = 0 := by
  unfold ParseV4 at h
  cases hc : parseV4core s with
  | none => simp [hc] at h
  | some t =>
    simp only [hc, Option.map_some] at h
    cases h
    rfl

/-! ## C1: encode/decode round trip through the platform address adapter -/

/-- C1: For every `IPEndpoint` whose address version matches the native
shape, encoding (`ToSockAddrIn` / `ToSockAddrIn6`) and then decoding
(`GetIPAddressFromSockAddr` plus `ntohs`) yields an endpoint equal
(`operator==`) to the original, including scope-id preservation for
link-local V6; the V6 encoder writes the scope field only for a
link-local address with non-zero scope id and zeroes the flow info. -/
theorem C1_adapter_roundtrip :
    (∀ e : IPEndpoint, e.address.version = .v4 → e.address.bytes.length = 16 →
      e.address.scope_id = 0 → e.port < 65536 →
      ∃ sa, ToSockAddrIn e = some sa ∧
        (RecomputeEndpointV4 sa).eqOp e = true) ∧
    (∀ e : IPEndpoint, e.address.version = .v6 → e.address.bytes.length = 16 →
      (e.address.scope_id ≠ 0 → e.address.IsLinkLocal = true) → e.port < 65536 →
      ∃ sa, ToSockAddrIn6 e = some sa ∧
        (RecomputeEndpointV6 sa).eqOp e = true ∧
        sa.sin6_family = AF_INET6 ∧ sa.sin6_port = htons e.port ∧
        sa.sin6_flowinfo = 0 ∧ sa.sin6_addr = e.address.bytes.take 16 ∧
        sa.sin6_scope_id =
          (if e.address.IsLinkLocal = true ∧ e.address.GetScopeId ≠ 0 then
            e.address.GetScopeId
          else 0)) := by
  constructor
  · intro e h1 h2 h3 h4
    refine ⟨⟨AF_INET, htons e.port, e.address.bytes.take 4⟩, ?_, ?_⟩
    · unfold ToSockAddrIn
      rw [if_pos h1]
    · simp only [RecomputeEndpointV4, GetIPAddressFromSockAddrIn,
        IPEndpoint.eqOp, IPAddress.eqOp, Bool.and_eq_true, decide_eq_true_eq]
      refine ⟨⟨⟨h1.symm, ?_⟩, h3.symm⟩, ntohs_htons _ h4⟩
      show ((e.address.bytes.take 4).take 4 ++ List.replicate 12 0).take 4
        = e.address.bytes.take 4
      rw [List.take_take]
      exact take_append_replicate_take _ _ _ (by omega)
  · intro e h1 h2 h3 h4
    refine ⟨⟨AF_INET6, htons e.port, 0, e.address.bytes.take 16,
      if e.address.IsLinkLocal = true ∧ e.address.GetScopeId ≠ 0 then
        e.address.GetScopeId else 0⟩, ?_, ?_, rfl, rfl, rfl, rfl, rfl⟩
    · unfold ToSockAddrIn6
      rw [if_pos h1]
    · simp only [RecomputeEndpointV6, GetIPAddressFromSockAddrIn6,
        IPEndpoint.eqOp, IPAddress.eqOp, Bool.and_eq_true, decide_eq_true_eq]
      refine ⟨⟨⟨h1.symm, ?_⟩, ?_⟩, ntohs_htons _ h4⟩
      · show ((e.address.bytes.take 16).take 16).take 16 = e.address.bytes.take 16
        simp [List.take_take]
      · by_cases hz : e.address.scope_id = 0
        · simp [IPAddress.GetScopeId, hz]
        · rw [if_pos ⟨h3 hz, hz⟩]
          rfl

theorem C1_adapter_roundtrip_witness :
    (∃ sa, ToSockAddrIn ⟨mkV4 192 168 0 1, 80⟩ = some sa ∧
      (RecomputeEndpointV4 sa).eqOp ⟨mkV4 192 168 0 1, 80⟩ = true) ∧
    (∃ sa, ToSockAddrIn6
        ⟨⟨.v6, [0xfe, 0x80, 0, 0, 0, 0, 0, 0, 0, 0, 0, 0, 0, 0, 0, 1], 3⟩, 99⟩ = some sa ∧
      (RecomputeEndpointV6 sa).eqOp
        ⟨⟨.v6, [0xfe, 0x80, 0, 0, 0, 0, 0, 0, 0, 0, 0, 0, 0, 0, 0, 1], 3⟩, 99⟩ = true ∧
      sa.sin6_family = AF_INET6 ∧
      sa.sin6_port =
        htons (⟨⟨.v6, [0xfe, 0x80, 0, 0, 0, 0, 0, 0, 0, 0, 0, 0, 0, 0, 0, 1], 3⟩, 99⟩ :
          IPEndpoint).port ∧
      sa.sin6_flowinfo = 0 ∧
      sa.sin6_addr =
        [0xfe, 0x80, 0, 0, 0, 0, 0, 0, 0, 0, 0, 0, 0, 0, 0, 1].take 16 ∧
      sa.sin6_scope_id =
        (if (⟨.v6, [0xfe, 0x80, 0, 0, 0, 0, 0, 0, 0, 0, 0, 0, 0, 0, 0, 1], 3⟩ :
              IPAddress).IsLinkLocal = true ∧
            (⟨.v6, [0xfe, 0x80, 0, 0, 0, 0, 0, 0, 0, 0, 0, 0, 0, 0, 0, 1], 3⟩ :
              IPAddress).GetScopeId ≠ 0 then
          (⟨.v6, [0xfe, 0x80, 0, 0, 0, 0, 0, 0, 0, 0, 0, 0, 0, 0, 0, 1], 3⟩ :
            IPAddress).GetScopeId
        else 0)) :=
  ⟨C1_adapter_roundtrip.1 ⟨mkV4 192 168 0 1, 80⟩ rfl (by decide) rfl (by decide),
   C1_adapter_roundtrip.2 _ rfl (by decide) (by decide) (by decide)⟩

/-! ## C2: non-link-local addresses carry scope id 0 -/

/-- C2 counterexample: the public 16-byte + scope-id constructor and the
`sockaddr_in6` decoder store a non-zero scope id on a non-link-local
address, so the claim fails for those construction paths. -/
theorem C2_counterexample :
    (IPAddress.ofBytesScope (List.replicate 16 0) 7).IsLinkLocal = false ∧
    (IPAddress.ofBytesScope (List.replicate 16 0) 7).GetScopeId = 7 ∧
    (GetIPAddressFromSockAddrIn6
      ⟨AF_INET6, 0, 0, List.replicate 16 0, 7⟩).IsLinkLocal = false ∧
    (GetIPAddressFromSockAddrIn6
      ⟨AF_INET6, 0, 0, List.replicate 16 0, 7⟩).GetScopeId = 7 := by
  refine ⟨by decide, by decide, by decide, by decide⟩

/-- C2 (amended): every address produced by `IPAddress::Parse` or by a
scope-free constructor satisfies "non-link-local implies scope id 0";
the 16-byte + scope-id constructor and `sockaddr_in6` decoding carry the
caller-supplied scope id unchecked and are excluded. -/
theorem C2_scope_invariant :
    (∀ (os : OsEnv) (s : List Char) (a : IPAddress),
      IPAddress.Parse os s = some a → a.IsLinkLocal = false → a.GetScopeId = 0) ∧
    (∀ b1 b2 b3 b4, (mkV4 b1 b2 b3 b4).GetScopeId = 0) ∧
    (∀ hs, (mkV6FromHextets hs).GetScopeId = 0) ∧
    (∀ sa, (GetIPAddressFromSockAddrIn sa).GetScopeId = 0) := by
  refine ⟨?_, fun _ _ _ _ => rfl, fun _ => rfl, fun _ => rfl⟩
  intro os s a h hll
  unfold IPAddress.Parse at h
  split at h
  · rename_i b hb
    cases h
    exact ParseV4_scope _ _ hb
  · rcases ParseV6_scope os s a h with h0 | h1
    · exact h0
    · rw [hll] at h1
      exact absurd h1 (by simp)

theorem C2_scope_invariant_witness :
    IPAddress.Parse ⟨[]⟩ ("::1".toList) =
      some ⟨.v6, [0, 0, 0, 0, 0, 0, 0, 0, 0, 0, 0, 0, 0, 0, 0, 1], 0⟩ ∧
    (⟨.v6, [0, 0, 0, 0, 0, 0, 0, 0, 0, 0, 0, 0, 0, 0, 0, 1], 0⟩ :
      IPAddress).IsLinkLocal = false ∧
    (⟨.v6, [0, 0, 0, 0, 0, 0, 0, 0, 0, 0, 0, 0, 0, 0, 0, 1], 0⟩ :
      IPAddress).GetScopeId = 0 :=
  ⟨by decide, by decide,
   C2_scope_invariant.1 ⟨[]⟩ ("::1".toList) _ (by decide) (by decide)⟩

/-! ## C7: format-then-reparse round trip -/

/-- C7 evaluated at the failing input: `operator<<` sets `std::hex` for V6
and never resets it, so the numeric scope-id fallback is printed in
hexadecimal.  Parsing `fe80::1%16` (no interface has index 16) yields scope
id 16, formatting prints `...%10`, and re-parsing yields scope id 10 — an
address unequal to the first parse result, refuting the round-trip claim. -/
theorem C7_scope_format_not_roundtrip :
    IPAddress.Parse ⟨[]⟩ ("fe80::1%16".toList) =
      some ⟨.v6, [0xfe, 0x80, 0, 0, 0, 0, 0, 0, 0, 0, 0, 0, 0, 0, 0, 1], 16⟩ ∧
    formatIPAddress ⟨[]⟩
        ⟨.v6, [0xfe, 0x80, 0, 0, 0, 0, 0, 0, 0, 0, 0, 0, 0, 0, 0, 1], 16⟩ =
      ("fe80:0000:0000:0000:0000:0000:0000:0001%10".toList) ∧
    IPAddress.Parse ⟨[]⟩
        ("fe80:0000:0000:0000:0000:0000:0000:0001%10".toList) =
      some ⟨.v6, [0xfe, 0x80, 0, 0, 0, 0, 0, 0, 0, 0, 0, 0, 0, 0, 0, 1], 10⟩ ∧
    IPAddress.eqOp
        ⟨.v6, [0xfe, 0x80, 0, 0, 0, 0, 0, 0, 0, 0, 0, 0, 0, 0, 0, 1], 10⟩
        ⟨.v6, [0xfe, 0x80, 0, 0, 0, 0, 0, 0, 0, 0, 0, 0, 0, 0, 0, 1], 16⟩ = false ∧
    (⟨.v6, [0xfe, 0x80, 0, 0, 0, 0, 0, 0, 0, 0, 0, 0, 0, 0, 0, 1], 10⟩ : IPAddress) ≠
      ⟨.v6, [0xfe, 0x80, 0, 0, 0, 0, 0, 0, 0, 0, 0, 0, 0, 0, 0, 1], 16⟩ := by
  refine ⟨by decide, by decide, by decide, by decide, by decide⟩

/-! ## C8: prefix length derivation from a netmask -/

theorem tplFF_replicate (n : Nat) (rest : List Nat)
    (h : rest.head? ≠ some 255) :
    tplFF (List.replicate n 255 ++ rest) = (8 * n, rest) := by
  induction n with
  | zero =>
    simp only [List.replicate, List.nil_append]
    cases rest with
    | nil => rfl
    | cons b t =>
      have hbne : b ≠ 255 := by
        intro hb
        exact h (by rw [hb]; rfl)
      simp [tplFF, hbne]
  | succ m ih =>
    rw [List.replicate_succ, List.cons_append]
    simp [tplFF, ih, Nat.mul_succ]

theorem all_zero_replicate (m : Nat) :
    (List.replicate m 0).all (fun x => decide (x = 0)) = true := by
  simp [List.all_eq_true, List.mem_replicate]

set_option maxRecDepth 4000 in
theorem leadOnes_midByte :
    ∀ k, k < 8 → 1 ≤ k → leadOnesStep 8 (midByte k) = (k, 0) := by decide

set_option maxRecDepth 4000 in
theorem midByte_ne (k : Nat) (h1 : 1 ≤ k) (h2 : k ≤ 7) :
    midByte k ≠ 255 ∧ midByte k ≠ 0 := by
  have h : ∀ j, j < 8 → 1 ≤ j → midByte j ≠ 255 ∧ midByte j ≠ 0 := by decide
  exact h k (by omega) h1

set_option maxRecDepth 8000 in
theorem byte_residue_zero_shape :
    ∀ b, b < 256 → b ≠ 0 → b ≠ 255 → (leadOnesStep 8 b).2 = 0 →
      1 ≤ (leadOnesStep 8 b).1 ∧ (leadOnesStep 8 b).1 ≤ 7 ∧
        midByte (leadOnesStep 8 b).1 = b := by decide

theorem ToPrefixLength_cons_255 (rest : List Nat) :
    ToPrefixLength (255 :: rest) = (ToPrefixLength rest).map (· + 8) := by
  unfold ToPrefixLength
  have hff : tplFF (255 :: rest) = ((tplFF rest).1 + 8, (tplFF rest).2) := by
    simp [tplFF]
  rw [hff]
  cases htm : tplMid (tplFF rest).2 with
  | none => simp
  | some c =>
    simp [htm]
    omega

/-- C8: `ToPrefixLength` returns `8*n + k` on every canonical netmask
(`n` full `0xff` bytes, an optional partial byte with `k` leading one-bits,
then zero bytes), matches the two concrete examples, and every mask on
which it does not hit the fatal check has exactly that canonical shape
(so a mask with a one-bit after the partial byte is fatal). -/
theorem C8_to_prefix_length :
    (∀ n k m, 1 ≤ k → k ≤ 7 →
      ToPrefixLength (List.replicate n 255 ++ midByte k :: List.replicate m 0) =
        some (8 * n + k)) ∧
    (∀ n m,
      ToPrefixLength (List.replicate n 255 ++ List.replicate m 0) = some (8 * n)) ∧
    ToPrefixLength [0xff, 0xff, 0xff, 0x00] = some 24 ∧
    ToPrefixLength [0xff, 0xff, 0xe0, 0x00] = some 19 ∧
    (∀ mask : List Nat, (∀ b ∈ mask, b < 256) →
      ToPrefixLength mask ≠ none →
      ∃ n k m, k ≤ 7 ∧
        ((k = 0 ∧ mask = List.replicate n 255 ++ List.replicate m 0) ∨
         (1 ≤ k ∧ mask = List.replicate n 255 ++ midByte k :: List.replicate m 0))) := by
  refine ⟨?_, ?_, by decide, by decide, ?_⟩
  · intro n k m hk1 hk7
    have hne := midByte_ne k hk1 hk7
    unfold ToPrefixLength
    rw [tplFF_replicate n _ (by simp [hne.1])]
    have hmid : tplMid (midByte k :: List.replicate m 0) = some k := by
      simp only [tplMid]
      rw [if_neg hne.2, leadOnes_midByte k (by omega) hk1]
      simp [all_zero_replicate]
    rw [hmid]
    rfl
  · intro n m
    unfold ToPrefixLength
    rw [tplFF_replicate n _ ?_]
    · have hmid : tplMid (List.replicate m 0) = some 0 := by
        cases m with
        | zero => rfl
        | succ j =>
          rw [List.replicate_succ]
          simp [tplMid, all_zero_replicate]
      rw [hmid]
      simp
    · cases m with
      | zero => simp
      | succ j => rw [List.replicate_succ]; simp
  · intro mask
    induction mask with
    | nil =>
      intro _ _
      exact ⟨0, 0, 0, by omega, Or.inl ⟨rfl, rfl⟩⟩
    | cons b rest ih =>
      intro hb hres
      by_cases h255 : b = 255
      · subst h255
        have hres' : ToPrefixLength rest ≠ none := by
          intro hnone
          rw [ToPrefixLength_cons_255, hnone] at hres
          exact hres rfl
        obtain ⟨n, k, m, hk, hshape⟩ :=
          ih (fun x hx => hb x (List.mem_cons_of_mem _ hx)) hres'
        refine ⟨n + 1, k, m, hk, ?_⟩
        rcases hshape with ⟨hk0, hmask⟩ | ⟨hk1, hmask⟩
        · exact Or.inl ⟨hk0, by rw [List.replicate_succ, List.cons_append, hmask]⟩
        · exact Or.inr ⟨hk1, by rw [List.replicate_succ, List.cons_append, hmask]⟩
      · have hff : tplFF (b :: rest) = (0, b :: rest) := by
          simp only [tplFF]
          rw [if_neg h255]
        by_cases h0 : b = 0
        · subst h0
          have hall : rest.all (fun x => decide (x = 0)) = true := by
            by_contra hna
            apply hres
            unfold ToPrefixLength
            rw [hff]
            simp only [tplMid]
            simp [hna]
          have hrep : rest = List.replicate rest.length 0 := by
            rw [List.eq_replicate_iff]
            refine ⟨rfl, ?_⟩
            intro x hx
            have hx0 := List.all_eq_true.mp hall x hx
            simpa using hx0
          exact ⟨0, 0, rest.length + 1, by omega,
            Or.inl ⟨rfl, by rw [List.replicate_succ]; simp [hrep.symm]⟩⟩
        · have hr2 : (leadOnesStep 8 b).2 = 0 := by
            by_contra hr
            apply hres
            unfold ToPrefixLength
            rw [hff]
            simp only [tplMid]
            rw [if_neg h0, if_pos hr]
            rfl
          have hall : rest.all (fun x => decide (x = 0)) = true := by
            by_contra hna
            apply hres
            unfold ToPrefixLength
            rw [hff]
            simp only [tplMid]
            rw [if_neg h0, if_neg (by simp [hr2]), if_neg hna]
            rfl
          obtain ⟨hc1, hc7, hcb⟩ :=
            byte_residue_zero_shape b (hb b (by simp)) h0 h255 hr2
          have hrep : rest = List.replicate rest.length 0 := by
            rw [List.eq_replicate_iff]
            refine ⟨rfl, ?_⟩
            intro x hx
            have hx0 := List.all_eq_true.mp hall x hx
            simpa using hx0
          exact ⟨0, (leadOnesStep 8 b).1, rest.length, hc7,
            Or.inr ⟨hc1, by rw [hcb]; simp [hrep.symm]⟩⟩

theorem C8_to_prefix_length_witness :
    ToPrefixLength (List.replicate 2 255 ++ midByte 3 :: List.replicate 1 0) =
      some (8 * 2 + 3) ∧
    ToPrefixLength (List.replicate 3 255 ++ List.replicate 1 0) = some (8 * 3) ∧
    (∀ b ∈ [255, 224, 0], b < 256) ∧
    ToPrefixLength [255, 224, 0] ≠ none ∧
    (∃ n k m, k ≤ 7 ∧
      ((k = 0 ∧ [255, 224, 0] = List.replicate n 255 ++ List.replicate m 0) ∨
       (1 ≤ k ∧ [255, 224, 0] =
        List.replicate n 255 ++ midByte k :: List.replicate m 0))) :=
  ⟨C8_to_prefix_length.1 2 3 1 (by omega) (by omega),
   C8_to_prefix_length.2.1 3 1, by decide, by decide,
   C8_to_prefix_length.2.2.2.2 [255, 224, 0] (by decide) (by decide)⟩

/-! ## C9: records that are down or address-less are skipped entirely -/

theorem stepIface_skip (env : OsNet) (acc : List InterfaceInfo) (r : IfRecord)
    (h : r.running = false ∨ r.addr = none) :
    stepIface env acc r = some acc := by
  unfold stepIface
  rcases h with h | h
  · rw [if_pos h]
  · by_cases hr : r.running = false
    · rw [if_pos hr]
    · rw [if_neg hr, h]

theorem processGo_skip (env : OsNet) (r : IfRecord)
    (h : r.running = false ∨ r.addr = none) (ys : List IfRecord) :
    ∀ (xs : List IfRecord) (acc : List InterfaceInfo),
      processGo env acc (xs ++ r :: ys) = processGo env acc (xs ++ ys) := by
  intro xs
  induction xs with
  | nil =>
    intro acc
    simp only [List.nil_append, processGo]
    rw [stepIface_skip env acc r h]
  | cons x t ih =>
    intro acc
    simp only [List.cons_append, processGo]
    cases hs : stepIface env acc x with
    | none => rfl
    | some acc' => exact ih acc'

/-- C9: an interface-address record whose interface is not up, or that
carries no address, contributes nothing to the snapshot: removing it from
the `getifaddrs` list leaves `GetNetworkInterfaces` unchanged (so it adds
no `InterfaceInfo` entry, no hardware address, and no subnet). -/
theorem C9_skip_down_or_addressless (env : OsNet) (xs ys : List IfRecord)
    (r : IfRecord) (h : r.running = false ∨ r.addr = none) :
    GetNetworkInterfaces env (some (xs ++ r :: ys)) =
      GetNetworkInterfaces env (some (xs ++ ys)) := by
  unfold GetNetworkInterfaces ProcessInterfacesList
  exact processGo_skip env r h ys xs []

theorem C9_skip_down_or_addressless_witness :
    GetNetworkInterfaces ⟨fun _ => none, fun _ _ => none, fun _ => 0⟩
        (some ([⟨['e'], true, false, some .other, none⟩] ++
          ⟨['x'], false, true, some .other, none⟩ ::
          [⟨['l'], true, true, some .other, none⟩])) =
      GetNetworkInterfaces ⟨fun _ => none, fun _ _ => none, fun _ => 0⟩
        (some ([⟨['e'], true, false, some .other, none⟩] ++
          [⟨['l'], true, true, some .other, none⟩])) :=
  C9_skip_down_or_addressless ⟨fun _ => none, fun _ _ => none, fun _ => 0⟩
    [⟨['e'], true, false, some .other, none⟩]
    [⟨['l'], true, true, some .other, none⟩]
    ⟨['x'], false, true, some .other, none⟩ (Or.inl rfl)

/-! ## C10: a failed v6 flags ioctl skips the address but keeps the entry -/

/-- C10: when the per-address IPv6 status ioctl fails (`v6flags = none`),
the record is handled exactly as if the address were deprecated
(`v6flags = some true`): no `IPSubnet` is appended, while the
`InterfaceInfo` entry itself (existing, or newly created after successful
classification) is kept. -/
theorem C10_v6_flags_ioctl_error (env env2 : OsNet) (acc : List InterfaceInfo)
    (r : IfRecord) (sa : SockAddrIn6)
    (haddr : r.addr = some (.v6 sa)) (hrun : r.running = true)
    (herr : env.v6flags r.name sa = none)
    (hdep : env2.v6flags r.name sa = some true)
    (hmedia : env2.media = env.media) (hidx : env2.nameindex = env.nameindex) :
    stepIface env acc r = stepIface env2 acc r ∧
    (∀ i, findIdxByName r.name acc = some i → stepIface env acc r = some acc) ∧
    (findIdxByName r.name acc = none → ∀ t, classifyIface env r = some t →
      stepIface env acc r =
        some (acc ++ [⟨env.nameindex r.name, List.replicate 6 0, r.name, t, []⟩])) := by
  obtain ⟨nm, rn, lb, ad, nmask⟩ := r
  simp only at haddr herr hdep hrun
  subst haddr
  subst hrun
  have happly : ∀ (acc' : List InterfaceInfo) (i : Nat),
      applyV6 env acc' i nm sa nmask = some acc' := by
    intro acc' i
    unfold applyV6
    rw [herr]
  have happly2 : ∀ (acc' : List InterfaceInfo) (i : Nat),
      applyV6 env2 acc' i nm sa nmask = some acc' := by
    intro acc' i
    unfold applyV6
    rw [hdep]
  have hclass : classifyIface env2 ⟨nm, true, lb, some (.v6 sa), nmask⟩ =
      classifyIface env ⟨nm, true, lb, some (.v6 sa), nmask⟩ := by
    unfold classifyIface
    rw [hmedia]
  have hstep : ∀ (env' : OsNet),
      stepIface env' acc ⟨nm, true, lb, some (.v6 sa), nmask⟩ =
        match findIdxByName nm acc with
        | some i => applyV6 env' acc i nm sa nmask
        | none =>
          match classifyIface env' ⟨nm, true, lb, some (.v6 sa), nmask⟩ with
          | none => some acc
          | some t =>
            applyV6 env'
              (acc ++ [⟨env'.nameindex nm, List.replicate 6 0, nm, t, []⟩])
              acc.length nm sa nmask := by
    intro env'
    rfl
  refine ⟨?_, ?_, ?_⟩
  · rw [hstep env, hstep env2, hclass, hidx]
    cases hf : findIdxByName nm acc with
    | some i =>
      show applyV6 env acc i nm sa nmask = applyV6 env2 acc i nm sa nmask
      rw [happly, happly2]
    | none =>
      cases hc : classifyIface env ⟨nm, true, lb, some (.v6 sa), nmask⟩ with
      | none => rfl
      | some t =>
        show applyV6 env (acc ++ [⟨env.nameindex nm, List.replicate 6 0, nm, t, []⟩])
            acc.length nm sa nmask =
          applyV6 env2 (acc ++ [⟨env.nameindex nm, List.replicate 6 0, nm, t, []⟩])
            acc.length nm sa nmask
        rw [happly, happly2]
  · intro i hf
    rw [hstep env, hf]
    exact happly acc i
  · intro hf t hc
    rw [hstep env, hf, hc]
    exact happly _ _

theorem C10_v6_flags_ioctl_error_witness :
    stepIface ⟨fun _ => some ⟨true, true, false, true⟩, fun _ _ => none, fun _ => 5⟩
        [] ⟨['e'], true, false, some (.v6 ⟨10, 0, 0, List.replicate 16 0, 0⟩), none⟩ =
      stepIface ⟨fun _ => some ⟨true, true, false, true⟩, fun _ _ => some true, fun _ => 5⟩
        [] ⟨['e'], true, false, some (.v6 ⟨10, 0, 0, List.replicate 16 0, 0⟩), none⟩ ∧
    (findIdxByName ['e'] ([] : List InterfaceInfo) = none →
      ∀ t, classifyIface
          ⟨fun _ => some ⟨true, true, false, true⟩, fun _ _ => none, fun _ => 5⟩
          ⟨['e'], true, false, some (.v6 ⟨10, 0, 0, List.replicate 16 0, 0⟩), none⟩ = some t →
      stepIface ⟨fun _ => some ⟨true, true, false, true⟩, fun _ _ => none, fun _ => 5⟩
          [] ⟨['e'], true, false, some (.v6 ⟨10, 0, 0, List.replicate 16 0, 0⟩), none⟩ =
        some ([] ++ [⟨5, List.replicate 6 0, ['e'], t, []⟩])) :=
  ⟨(C10_v6_flags_ioctl_error
      ⟨fun _ => some ⟨true, true, false, true⟩, fun _ _ => none, fun _ => 5⟩
      ⟨fun _ => some ⟨true, true, false, true⟩, fun _ _ => some true, fun _ => 5⟩
      [] ⟨['e'], true, false, some (.v6 ⟨10, 0, 0, List.replicate 16 0, 0⟩), none⟩
      ⟨10, 0, 0, List.replicate 16 0, 0⟩ rfl rfl rfl rfl rfl rfl).1,
   (C10_v6_flags_ioctl_error
      ⟨fun _ => some ⟨true, true, false, true⟩, fun _ _ => none, fun _ => 5⟩
      ⟨fun _ => some ⟨true, true, false, true⟩, fun _ _ => some true, fun _ => 5⟩
      [] ⟨['e'], true, false, some (.v6 ⟨10, 0, 0, List.replicate 16 0, 0⟩), none⟩
      ⟨10, 0, 0, List.replicate 16 0, 0⟩ rfl rfl rfl rfl rfl rfl).2.2⟩

/-! ## C3: ordering totality and semantics -/

theorem foldl_byte_init (l : List Nat) (a : Nat) :
    l.foldl (fun x b => x * 256 + b) a = a * 256 ^ l.length + bytesToNat l := by
  induction l generalizing a with
  | nil => simp [bytesToNat, digitsVal]
  | cons b t ih =>
    show t.foldl (fun x b => x * 256 + b) (a * 256 + b) = _
    rw [ih]
    have hb : bytesToNat (b :: t) = b * 256 ^ t.length + bytesToNat t := by
      show (b :: t).foldl (fun x b => x * 256 + b) 0 = _
      show t.foldl (fun x b => x * 256 + b) (0 * 256 + b) = _
      rw [ih]
      ring_nf
    rw [hb]
    simp [List.length_cons]
    ring

theorem bytesToNat_cons (b : Nat) (t : List Nat) :
    bytesToNat (b :: t) = b * 256 ^ t.length + bytesToNat t := by
  show t.foldl (fun x b => x * 256 + b) (0 * 256 + b) = _
  rw [foldl_byte_init]
  ring_nf

theorem bytesToNat_lt (l : List Nat) (h : ∀ b ∈ l, b < 256) :
    bytesToNat l < 256 ^ l.length := by
  induction l with
  | nil => simp [bytesToNat, digitsVal]
  | cons b t ih =>
    rw [bytesToNat_cons]
    have hb : b < 256 := h b (by simp)
    have ht : bytesToNat t < 256 ^ t.length := ih (fun x hx => h x (by simp [hx]))
    have hsm : (b + 1) * 256 ^ t.length = b * 256 ^ t.length + 256 ^ t.length := by ring
    have hlt : b * 256 ^ t.length + bytesToNat t < (b + 1) * 256 ^ t.length := by
      omega
    calc b * 256 ^ t.length + bytesToNat t < (b + 1) * 256 ^ t.length := hlt
      _ ≤ 256 * 256 ^ t.length := Nat.mul_le_mul_right _ (by omega)
      _ = 256 ^ (t.length + 1) := by ring
      _ = 256 ^ (b :: t).length := by simp

theorem listOrd_eq_iff (l1 l2 : List Nat) (hlen : l1.length = l2.length) :
    listOrd l1 l2 = .eq ↔ l1 = l2 := by
  induction l1 generalizing l2 with
  | nil =>
    cases l2 with
    | nil => simp [listOrd]
    | cons b t => simp at hlen
  | cons a t1 ih =>
    cases l2 with
    | nil => simp at hlen
    | cons b t2 =>
      simp only [listOrd]
      by_cases hab : a < b
      · rw [if_pos hab]
        constructor
        · intro h; exact absurd h (by simp)
        · intro h
          injection h with h1 h2
          omega
      · rw [if_neg hab]
        by_cases hba : b < a
        · rw [if_pos hba]
          constructor
          · intro h; exact absurd h (by simp)
          · intro h
            injection h with h1 h2
            omega
        · rw [if_neg hba]
          have hab' : a = b := by omega
          subst hab'
          rw [ih t2 (by simpa using hlen)]
          simp

theorem listOrd_lt_iff (l1 l2 : List Nat) (hlen : l1.length = l2.length)
    (h1 : ∀ b ∈ l1, b < 256) (h2 : ∀ b ∈ l2, b < 256) :
    listOrd l1 l2 = .lt ↔ bytesToNat l1 < bytesToNat l2 := by
  induction l1 generalizing l2 with
  | nil =>
    cases l2 with
    | nil => simp [listOrd]
    | cons b t => simp at hlen
  | cons a t1 ih =>
    cases l2 with
    | nil => simp at hlen
    | cons b t2 =>
      have hlen' : t1.length = t2.length := by simpa using hlen
      have hv1 : bytesToNat t1 < 256 ^ t1.length :=
        bytesToNat_lt t1 (fun x hx => h1 x (by simp [hx]))
      have hv2 : bytesToNat t2 < 256 ^ t2.length :=
        bytesToNat_lt t2 (fun x hx => h2 x (by simp [hx]))
      rw [bytesToNat_cons, bytesToNat_cons, hlen']
      simp only [listOrd]
      by_cases hab : a < b
      · rw [if_pos hab]
        have hle : (a + 1) * 256 ^ t2.length ≤ b * 256 ^ t2.length :=
          Nat.mul_le_mul_right _ (by omega)
        have hsm : (a + 1) * 256 ^ t2.length = a * 256 ^ t2.length + 256 ^ t2.length := by
          ring
        rw [hsm] at hle
        rw [hlen'] at hv1
        constructor
        · intro _
          omega
        · intro _
          rfl
      · rw [if_neg hab]
        by_cases hba : b < a
        · rw [if_pos hba]
          have hle : (b + 1) * 256 ^ t2.length ≤ a * 256 ^ t2.length :=
            Nat.mul_le_mul_right _ (by omega)
          have hsm : (b + 1) * 256 ^ t2.length = b * 256 ^ t2.length + 256 ^ t2.length := by
            ring
          rw [hsm] at hle
          constructor
          · intro h; exact absurd h (by simp)
          · intro hlt
            omega
        · have hab' : a = b := by omega
          subst hab'
          rw [if_neg (by omega)]
          rw [ih t2 hlen' (fun x hx => h1 x (by simp [hx])) (fun x hx => h2 x (by simp [hx]))]
          omega

theorem listOrd_cases (l1 l2 : List Nat) :
    listOrd l1 l2 = .lt ∨ listOrd l1 l2 = .eq ∨ listOrd l1 l2 = .gt := by
  cases h : listOrd l1 l2
  · exact Or.inl rfl
  · exact Or.inr (Or.inl rfl)
  · exact Or.inr (Or.inr rfl)

theorem listOrd_gt_swap (l1 l2 : List Nat) (hlen : l1.length = l2.length) :
    listOrd l1 l2 = .gt ↔ listOrd l2 l1 = .lt := by
  induction l1 generalizing l2 with
  | nil =>
    cases l2 with
    | nil => simp [listOrd]
    | cons b t => simp at hlen
  | cons a t1 ih =>
    cases l2 with
    | nil => simp at hlen
    | cons b t2 =>
      simp only [listOrd]
      by_cases hab : a < b
      · rw [if_pos hab, if_neg (show ¬ b < a by omega), if_pos hab]
        constructor
        · intro h; exact absurd h (by simp)
        · intro h; exact absurd h (by simp)
      · rw [if_neg hab]
        by_cases hba : b < a
        · rw [if_pos hba, if_pos hba]
          simp
        · rw [if_neg hba, if_neg hba, if_neg hab]
          exact ih t2 (by simpa using hlen)

theorem bool_eq_false (x : Bool) (h : ¬ x = true) : x = false := by
  cases x with
  | false => rfl
  | true => exact absurd rfl h

theorem eqOp_true_iff (a b : IPAddress) :
    a.eqOp b = true ↔
      (a.version = b.version ∧ a.bytes.take a.size = b.bytes.take a.size ∧
        a.scope_id = b.scope_id) := by
  simp [IPAddress.eqOp, and_assoc]

theorem ltOp_vv (a b : IPAddress) (h4 : a.version = .v4) (h6 : b.version = .v6) :
    a.ltOp b = true := by
  unfold IPAddress.ltOp
  rw [if_pos (show a.version ≠ b.version by rw [h4, h6]; simp)]
  rw [h4, h6]
  rfl

theorem ltOp_vv_false (a b : IPAddress) (h6 : a.version = .v6) (h4 : b.version = .v4) :
    a.ltOp b = false := by
  unfold IPAddress.ltOp
  rw [if_pos (show a.version ≠ b.version by rw [h4, h6]; simp)]
  rw [h4, h6]
  rfl

theorem ltOp_v4_eq (a b : IPAddress) (h4a : a.version = .v4) (h4b : b.version = .v4) :
    a.ltOp b = decide (listOrd (a.bytes.take 4) (b.bytes.take 4) = .lt) := by
  unfold IPAddress.ltOp
  rw [if_neg (show ¬ a.version ≠ b.version by rw [h4a, h4b]; simp)]
  rw [h4a]

theorem ltOp_v6_eq (a b : IPAddress) (h6a : a.version = .v6) (h6b : b.version = .v6) :
    a.ltOp b =
      (match listOrd (a.bytes.take 16) (b.bytes.take 16) with
       | .lt => true
       | .gt => false
       | .eq => decide (a.scope_id < b.scope_id)) := by
  unfold IPAddress.ltOp
  rw [if_neg (show ¬ a.version ≠ b.version by rw [h6a, h6b]; simp)]
  rw [h6a]

/-- C3: `operator<` and `operator==` form a total order on well-formed
addresses — exactly one of `a<b`, `a==b`, `a>b` holds; every V4 address
orders before every V6 address; within a version `operator<` compares the
meaningful bytes as an unsigned big-endian integer, with V6 ties broken by
the scope id (lower first). -/
theorem C3_ordering (a b : IPAddress) (ha : WFAddr a) (hb : WFAddr b) :
    ((a.ltOp b = true ∧ a.eqOp b = false ∧ b.ltOp a = false) ∨
     (a.ltOp b = false ∧ a.eqOp b = true ∧ b.ltOp a = false) ∨
     (a.ltOp b = false ∧ a.eqOp b = false ∧ b.ltOp a = true)) ∧
    (a.version = .v4 → b.version = .v6 → a.ltOp b = true) ∧
    (a.version = b.version →
      (a.ltOp b = true ↔
        (bytesToNat (a.bytes.take a.size) < bytesToNat (b.bytes.take b.size) ∨
         (bytesToNat (a.bytes.take a.size) = bytesToNat (b.bytes.take b.size) ∧
          a.version = .v6 ∧ a.scope_id < b.scope_id)))) := by
  obtain ⟨hla, hbya, hs4a⟩ := ha
  obtain ⟨hlb, hbyb, hs4b⟩ := hb
  have hta4 : ∀ x ∈ a.bytes.take 4, x < 256 := fun x hx => hbya x (List.mem_of_mem_take hx)
  have htb4 : ∀ x ∈ b.bytes.take 4, x < 256 := fun x hx => hbyb x (List.mem_of_mem_take hx)
  have hta16 : ∀ x ∈ a.bytes.take 16, x < 256 := fun x hx => hbya x (List.mem_of_mem_take hx)
  have htb16 : ∀ x ∈ b.bytes.take 16, x < 256 := fun x hx => hbyb x (List.mem_of_mem_take hx)
  have hlen4 : (a.bytes.take 4).length = (b.bytes.take 4).length := by
    simp [List.length_take, hla, hlb]
  have hlen16 : (a.bytes.take 16).length = (b.bytes.take 16).length := by
    simp [List.length_take, hla, hlb]
  cases hva : a.version with
  | v4 =>
    have hsza : a.size = 4 := by simp [IPAddress.size, hva]
    cases hvb : b.version with
    | v4 =>
      have hszb : b.size = 4 := by simp [IPAddress.size, hvb]
      have hlt1 : a.ltOp b = true ↔
          bytesToNat (a.bytes.take 4) < bytesToNat (b.bytes.take 4) := by
        rw [ltOp_v4_eq a b hva hvb]
        simp only [decide_eq_true_eq]
        exact listOrd_lt_iff _ _ hlen4 hta4 htb4
      have hlt2 : b.ltOp a = true ↔
          bytesToNat (b.bytes.take 4) < bytesToNat (a.bytes.take 4) := by
        rw [ltOp_v4_eq b a hvb hva]
        simp only [decide_eq_true_eq]
        exact listOrd_lt_iff _ _ hlen4.symm htb4 hta4
      have heq1 : a.eqOp b = true ↔ a.bytes.take 4 = b.bytes.take 4 := by
        rw [eqOp_true_iff, hsza]
        constructor
        · intro h
          exact h.2.1
        · intro h
          exact ⟨hva.trans hvb.symm, h, (hs4a hva).trans (hs4b hvb).symm⟩
      refine ⟨?_, ?_, ?_⟩
      · rcases Nat.lt_trichotomy (bytesToNat (a.bytes.take 4))
          (bytesToNat (b.bytes.take 4)) with h | h | h
        · refine Or.inl ⟨hlt1.mpr h, ?_, ?_⟩
          · apply bool_eq_false
            intro hx
            rw [heq1] at hx
            rw [hx] at h
            omega
          · apply bool_eq_false
            intro hx
            have := hlt2.mp hx
            omega
        · have hLL : a.bytes.take 4 = b.bytes.take 4 := by
            rcases listOrd_cases (a.bytes.take 4) (b.bytes.take 4) with hc | hc | hc
            · have := (listOrd_lt_iff _ _ hlen4 hta4 htb4).mp hc
              omega
            · exact (listOrd_eq_iff _ _ hlen4).mp hc
            · have hc' := (listOrd_gt_swap _ _ hlen4).mp hc
              have := (listOrd_lt_iff _ _ hlen4.symm htb4 hta4).mp hc'
              omega
          refine Or.inr (Or.inl ⟨?_, heq1.mpr hLL, ?_⟩)
          · apply bool_eq_false
            intro hx
            have := hlt1.mp hx
            omega
          · apply bool_eq_false
            intro hx
            have := hlt2.mp hx
            omega
        · refine Or.inr (Or.inr ⟨?_, ?_, hlt2.mpr h⟩)
          · apply bool_eq_false
            intro hx
            have := hlt1.mp hx
            omega
          · apply bool_eq_false
            intro hx
            rw [heq1] at hx
            rw [hx] at h
            omega
      · intro _ h6
        exact absurd h6 (by simp)
      · intro _
        rw [hsza, hszb, hlt1]
        constructor
        · intro h
          exact Or.inl h
        · intro h
          rcases h with h | ⟨_, h6, _⟩
          · exact h
          · exact absurd h6 (by simp)
    | v6 =>
      refine ⟨Or.inl ⟨ltOp_vv a b hva hvb, ?_, ltOp_vv_false b a hvb hva⟩,
        fun _ _ => ltOp_vv a b hva hvb, ?_⟩
      · apply bool_eq_false
        intro hx
        have h := (eqOp_true_iff a b).mp hx
        rw [hva, hvb] at h
        exact absurd h.1 (by simp)
      · intro hvv
        exact absurd hvv (by simp)
  | v6 =>
    have hsza : a.size = 16 := by simp [IPAddress.size, hva]
    cases hvb : b.version with
    | v4 =>
      refine ⟨Or.inr (Or.inr ⟨ltOp_vv_false a b hva hvb, ?_, ltOp_vv b a hvb hva⟩),
        ?_, ?_⟩
      · apply bool_eq_false
        intro hx
        have h := (eqOp_true_iff a b).mp hx
        rw [hva, hvb] at h
        exact absurd h.1 (by simp)
      · intro h4
        exact absurd h4 (by simp)
      · intro hvv
        exact absurd hvv (by simp)
    | v6 =>
      have hszb : b.size = 16 := by simp [IPAddress.size, hvb]
      have hord1 : listOrd (a.bytes.take 16) (b.bytes.take 16) = .lt ↔
          bytesToNat (a.bytes.take 16) < bytesToNat (b.bytes.take 16) :=
        listOrd_lt_iff _ _ hlen16 hta16 htb16
      have hord2 : listOrd (b.bytes.take 16) (a.bytes.take 16) = .lt ↔
          bytesToNat (b.bytes.take 16) < bytesToNat (a.bytes.take 16) :=
        listOrd_lt_iff _ _ hlen16.symm htb16 hta16
      have heq1 : a.eqOp b = true ↔
          (a.bytes.take 16 = b.bytes.take 16 ∧ a.scope_id = b.scope_id) := by
        rw [eqOp_true_iff, hsza]
        constructor
        · intro h
          exact ⟨h.2.1, h.2.2⟩
        · intro h
          exact ⟨hva.trans hvb.symm, h.1, h.2⟩
      refine ⟨?_, ?_, ?_⟩
      · rcases Nat.lt_trichotomy (bytesToNat (a.bytes.take 16))
          (bytesToNat (b.bytes.take 16)) with h | h | h
        · have hc : listOrd (a.bytes.take 16) (b.bytes.take 16) = .lt := hord1.mpr h
          have hc' : listOrd (b.bytes.take 16) (a.bytes.take 16) = .gt :=
            (listOrd_gt_swap _ _ hlen16.symm).mpr hc
          refine Or.inl ⟨?_, ?_, ?_⟩
          · rw [ltOp_v6_eq a b hva hvb, hc]
          · apply bool_eq_false
            intro hx
            have := (heq1.mp hx).1
            rw [this] at h
            omega
          · rw [ltOp_v6_eq b a hvb hva, hc']
        · have hLL : a.bytes.take 16 = b.bytes.take 16 := by
            rcases listOrd_cases (a.bytes.take 16) (b.bytes.take 16) with hc | hc | hc
            · have := hord1.mp hc
              omega
            · exact (listOrd_eq_iff _ _ hlen16).mp hc
            · have := hord2.mp ((listOrd_gt_swap _ _ hlen16).mp hc)
              omega
          have hcab : listOrd (a.bytes.take 16) (b.bytes.take 16) = .eq :=
            (listOrd_eq_iff _ _ hlen16).mpr hLL
          have hcba : listOrd (b.bytes.take 16) (a.bytes.take 16) = .eq :=
            (listOrd_eq_iff _ _ hlen16.symm).mpr hLL.symm
          rcases Nat.lt_trichotomy a.scope_id b.scope_id with hs | hs | hs
          · refine Or.inl ⟨?_, ?_, ?_⟩
            · rw [ltOp_v6_eq a b hva hvb, hcab]
              simp [hs]
            · apply bool_eq_false
              intro hx
              have := (heq1.mp hx).2
              omega
            · rw [ltOp_v6_eq b a hvb hva, hcba]
              simp
              omega
          · refine Or.inr (Or.inl ⟨?_, heq1.mpr ⟨hLL, hs⟩, ?_⟩)
            · rw [ltOp_v6_eq a b hva hvb, hcab]
              simp
              omega
            · rw [ltOp_v6_eq b a hvb hva, hcba]
              simp
              omega
          · refine Or.inr (Or.inr ⟨?_, ?_, ?_⟩)
            · rw [ltOp_v6_eq a b hva hvb, hcab]
              simp
              omega
            · apply bool_eq_false
              intro hx
              have := (heq1.mp hx).2
              omega
            · rw [ltOp_v6_eq b a hvb hva, hcba]
              simp [hs]
        · have hc : listOrd (b.bytes.take 16) (a.bytes.take 16) = .lt := hord2.mpr h
          have hc' : listOrd (a.bytes.take 16) (b.bytes.take 16) = .gt :=
            (listOrd_gt_swap _ _ hlen16).mpr hc
          refine Or.inr (Or.inr ⟨?_, ?_, ?_⟩)
          · rw [ltOp_v6_eq a b hva hvb, hc']
          · apply bool_eq_false
            intro hx
            have := (heq1.mp hx).1
            rw [this] at h
            omega
          · rw [ltOp_v6_eq b a hvb hva, hc]
      · intro h4
        exact absurd h4 (by simp)
      · intro _
        rw [hsza, hszb, ltOp_v6_eq a b hva hvb]
        rcases listOrd_cases (a.bytes.take 16) (b.bytes.take 16) with hc | hc | hc
        · rw [hc]
          have hv := hord1.mp hc
          constructor
          · intro _
            exact Or.inl hv
          · intro _
            rfl
        · rw [hc]
          have hLL := (listOrd_eq_iff _ _ hlen16).mp hc
          have hv : bytesToNat (a.bytes.take 16) = bytesToNat (b.bytes.take 16) := by
            rw [hLL]
          simp only [decide_eq_true_eq]
          constructor
          · intro hs
            exact Or.inr ⟨hv, trivial, hs⟩
          · intro hx
            rcases hx with hx | ⟨_, _, hs⟩
            · omega
            · exact hs
        · rw [hc]
          have hv := hord2.mp ((listOrd_gt_swap _ _ hlen16).mp hc)
          constructor
          · intro hx
            exact absurd hx (by simp)
          · intro hx
            rcases hx with hx | ⟨hx, _, _⟩ <;> omega

theorem C3_ordering_witness :
    (WFAddr (mkV4 10 0 0 1) ∧ WFAddr ⟨.v6, List.replicate 15 0 ++ [1], 0⟩) ∧
    (((mkV4 10 0 0 1).ltOp ⟨.v6, List.replicate 15 0 ++ [1], 0⟩ = true ∧
      (mkV4 10 0 0 1).eqOp ⟨.v6, List.replicate 15 0 ++ [1], 0⟩ = false ∧
      (⟨.v6, List.replicate 15 0 ++ [1], 0⟩ : IPAddress).ltOp (mkV4 10 0 0 1) = false) ∨
     ((mkV4 10 0 0 1).ltOp ⟨.v6, List.replicate 15 0 ++ [1], 0⟩ = false ∧
      (mkV4 10 0 0 1).eqOp ⟨.v6, List.replicate 15 0 ++ [1], 0⟩ = true ∧
      (⟨.v6, List.replicate 15 0 ++ [1], 0⟩ : IPAddress).ltOp (mkV4 10 0 0 1) = false) ∨
     ((mkV4 10 0 0 1).ltOp ⟨.v6, List.replicate 15 0 ++ [1], 0⟩ = false ∧
      (mkV4 10 0 0 1).eqOp ⟨.v6, List.replicate 15 0 ++ [1], 0⟩ = false ∧
      (⟨.v6, List.replicate 15 0 ++ [1], 0⟩ : IPAddress).ltOp (mkV4 10 0 0 1) = true)) :=
  ⟨⟨by decide, by decide⟩,
   (C3_ordering (mkV4 10 0 0 1) ⟨.v6, List.replicate 15 0 ++ [1], 0⟩
     (by decide) (by decide)).1⟩

/-! ## Shared character/digit lemmas for the parsing claims -/

theorem digitVal_none_of_toNat (base : Nat) (c : Char)
    (h1 : ¬ (48 ≤ c.toNat ∧ c.toNat ≤ 57))
    (h2 : ¬ (97 ≤ c.toNat ∧ c.toNat ≤ 102))
    (h3 : ¬ (65 ≤ c.toNat ∧ c.toNat ≤ 70)) : digitVal base c = none := by
  unfold digitVal
  rw [if_neg (by omega), if_neg (by omega), if_neg (by omega)]

theorem digitVal_colon (base : Nat) : digitVal base ':' = none :=
  digitVal_none_of_toNat base ':' (by decide) (by decide) (by decide)

theorem ws_class (c : Char) (h : c.isWhitespace = true) :
    c = ' ' ∨ c = '\t' ∨ c = '\r' ∨ c = '\n' := by
  simp only [Char.isWhitespace, Bool.or_eq_true, decide_eq_true_eq] at h
  tauto

theorem ws_not_digit (base : Nat) (c : Char) (h : c.isWhitespace = true) :
    digitVal base c = none := by
  rcases ws_class c h with h | h | h | h <;> subst h <;>
    exact digitVal_none_of_toNat _ _ (by decide) (by decide) (by decide)

theorem leadDigits_decomp (base : Nat) :
    ∀ s : List Char, ∃ pre, s = pre ++ (leadDigits base s).2 ∧
      (∀ c ∈ pre, (digitVal base c).isSome = true) ∧
      (leadDigits base s).1 = pre.filterMap (digitVal base) := by
  intro s
  induction s with
  | nil => exact ⟨[], rfl, by simp, rfl⟩
  | cons c rest ih =>
    cases hd : digitVal base c with
    | none =>
      refine ⟨[], ?_, by simp, ?_⟩
      · simp [leadDigits, hd]
      · simp [leadDigits, hd]
    | some d =>
      obtain ⟨pre, h1, h2, h3⟩ := ih
      have he : leadDigits base (c :: rest) =
          (d :: (leadDigits base rest).1, (leadDigits base rest).2) := by
        simp [leadDigits, hd]
      refine ⟨c :: pre, ?_, ?_, ?_⟩
      · rw [he]
        show c :: rest = c :: (pre ++ (leadDigits base rest).2)
        rw [← h1]
      · intro x hx
        rcases List.mem_cons.mp hx with hx | hx
        · subst hx
          simp [hd]
        · exact h2 x hx
      · rw [he]
        show d :: (leadDigits base rest).1 = (c :: pre).filterMap (digitVal base)
        rw [h3]
        simp [hd]

theorem leadDigits_all (base : Nat) (g rest : List Char)
    (hg : ∀ c ∈ g, (digitVal base c).isSome = true)
    (hrest : ∀ c, rest.head? = some c → digitVal base c = none) :
    leadDigits base (g ++ rest) = (g.filterMap (digitVal base), rest) := by
  induction g with
  | nil =>
    cases rest with
    | nil => rfl
    | cons c r =>
      simp only [List.nil_append, List.filterMap_nil]
      simp [leadDigits, hrest c rfl]
  | cons c g' ih =>
    have hc := hg c (by simp)
    obtain ⟨d, hd⟩ := Option.isSome_iff_exists.mp hc
    have ih' := ih (fun x hx => hg x (by simp [hx]))
    simp only [List.cons_append]
    simp [leadDigits, hd, ih']

theorem filterMap_digits_ne_nil (base : Nat) (g : List Char) (hne : g ≠ [])
    (hg : ∀ c ∈ g, (digitVal base c).isSome = true) :
    g.filterMap (digitVal base) ≠ [] := by
  cases g with
  | nil => exact absurd rfl hne
  | cons c t =>
    obtain ⟨d, hd⟩ := Option.isSome_iff_exists.mp (hg c (by simp))
    simp [hd]

theorem fromCharsNat_some (base maxVal : Nat) (s : List Char) (v : Nat)
    (r : List Char) (h : fromCharsNat base maxVal s = some (v, r)) :
    ∃ pre, pre ≠ [] ∧ s = pre ++ r ∧
      (∀ c ∈ pre, (digitVal base c).isSome = true) ∧
      v = digitsVal base (pre.filterMap (digitVal base)) ∧ v ≤ maxVal := by
  unfold fromCharsNat at h
  dsimp only at h
  split at h
  · exact absurd h (by simp)
  · split at h
    · rename_i hne hle
      injection h with h
      injection h with hv hr
      obtain ⟨pre, h1, h2, h3⟩ := leadDigits_decomp base s
      refine ⟨pre, ?_, ?_, h2, ?_, ?_⟩
      · intro hp
        subst hp
        rw [List.filterMap_nil] at h3
        exact hne h3
      · rw [← hr]
        exact h1
      · rw [← hv, h3]
      · rw [← hv]
        exact hle
    · exact absurd h (by simp)

theorem fromCharsNat_render (base maxVal : Nat) (g rest : List Char)
    (hne : g ≠ []) (hg : ∀ c ∈ g, (digitVal base c).isSome = true)
    (hrest : ∀ c, rest.head? = some c → digitVal base c = none)
    (hv : digitsVal base (g.filterMap (digitVal base)) ≤ maxVal) :
    fromCharsNat base maxVal (g ++ rest) =
      some (digitsVal base (g.filterMap (digitVal base)), rest) := by
  unfold fromCharsNat
  rw [leadDigits_all base g rest hg hrest]
  rw [if_neg (by simpa using filterMap_digits_ne_nil base g hne hg), if_pos hv]

theorem expectChar_some (c : Char) (s r : List Char) :
    expectChar c s = some r ↔ s = c :: r := by
  cases s with
  | nil => simp [expectChar]
  | cons x t =>
    simp only [expectChar]
    by_cases hx : x = c
    · subst hx
      simp
    · rw [if_neg hx]
      constructor
      · intro h
        exact absurd h (by simp)
      · intro h
        injection h with h1 h2
        exact absurd h1 hx

/-! ## Character coverage of the V4 and V6 grammars -/

theorem parseV4core_chars (s : List Char) (t : Nat × Nat × Nat × Nat)
    (h : parseV4core s = some t) :
    ∀ c ∈ s, ((digitVal 10 c).isSome = true ∨ c = '.') := by
  unfold parseV4core at h
  cases E0 : fromCharsNat 10 255 s with
  | none => rw [E0] at h; exact absurd h (by simp)
  | some p0 =>
    obtain ⟨o0, s0⟩ := p0
    rw [E0] at h
    simp only [Option.bind_eq_bind, Option.some_bind] at h
    cases F0 : expectChar '.' s0 with
    | none => rw [F0] at h; exact absurd h (by simp)
    | some t0 =>
      rw [F0] at h
      simp only [Option.some_bind] at h
      cases E1 : fromCharsNat 10 255 t0 with
      | none => rw [E1] at h; exact absurd h (by simp)
      | some p1 =>
        obtain ⟨o1, s1⟩ := p1
        rw [E1] at h
        simp only [Option.some_bind] at h
        cases F1 : expectChar '.' s1 with
        | none => rw [F1] at h; exact absurd h (by simp)
        | some t1 =>
          rw [F1] at h
          simp only [Option.some_bind] at h
          cases E2 : fromCharsNat 10 255 t1 with
          | none => rw [E2] at h; exact absurd h (by simp)
          | some p2 =>
            obtain ⟨o2, s2⟩ := p2
            rw [E2] at h
            simp only [Option.some_bind] at h
            cases F2 : expectChar '.' s2 with
            | none => rw [F2] at h; exact absurd h (by simp)
            | some t2 =>
              rw [F2] at h
              simp only [Option.some_bind] at h
              cases E3 : fromCharsNat 10 255 t2 with
              | none => rw [E3] at h; exact absurd h (by simp)
              | some p3 =>
                obtain ⟨o3, s3⟩ := p3
                rw [E3] at h
                simp only [Option.some_bind] at h
                split at h
                · rename_i hs3
                  obtain ⟨pre0, _, hsp0, hd0, _, _⟩ :=
                    fromCharsNat_some _ _ _ _ _ E0
                  obtain ⟨pre1, _, hsp1, hd1, _, _⟩ :=
                    fromCharsNat_some _ _ _ _ _ E1
                  obtain ⟨pre2, _, hsp2, hd2, _, _⟩ :=
                    fromCharsNat_some _ _ _ _ _ E2
                  obtain ⟨pre3, _, hsp3, hd3, _, _⟩ :=
                    fromCharsNat_some _ _ _ _ _ E3
                  have hs0 : s0 = '.' :: t0 := (expectChar_some _ _ _).mp F0
                  have hs1 : s1 = '.' :: t1 := (expectChar_some _ _ _).mp F1
                  have hs2 : s2 = '.' :: t2 := (expectChar_some _ _ _).mp F2
                  subst hs3
                  rw [List.append_nil] at hsp3
                  rw [hsp0, hs0, hsp1, hs1, hsp2, hs2, hsp3]
                  intro c hc
                  simp only [List.mem_append, List.mem_cons] at hc
                  rcases hc with hc | hc | hc | hc | hc | hc | hc
                  · exact Or.inl (hd0 c hc)
                  · exact Or.inr hc
                  · exact Or.inl (hd1 c hc)
                  · exact Or.inr hc
                  · exact Or.inl (hd2 c hc)
                  · exact Or.inr hc
                  · exact Or.inl (hd3 c hc)
                · exact absurd h (by simp)

theorem ParseV4_none_of_mem (s : List Char) (c : Char) (hc : c ∈ s)
    (hnd : digitVal 10 c = none) (hdot : c ≠ '.') : ParseV4 s = none := by
  cases hp : ParseV4 s with
  | none => rfl
  | some a =>
    exfalso
    unfold ParseV4 at hp
    cases hcore : parseV4core s with
    | none => rw [hcore] at hp; exact absurd hp (by simp)
    | some t =>
      rcases parseV4core_chars s t hcore c hc with h | h
      · rw [hnd] at h
        exact absurd h (by simp)
      · exact hdot h

theorem parseHexRest_chars :
    ∀ (n : Nat) (s : List Char) (hs : List Nat) (r : List Char),
      parseHexRest n s = some (hs, r) →
      ∃ pre, s = pre ++ r ∧ ∀ c ∈ pre, ((digitVal 16 c).isSome = true ∨ c = ':') := by
  intro n
  induction n with
  | zero =>
    intro s hs r h
    unfold parseHexRest at h
    injection h with h
    injection h with h1 h2
    exact ⟨[], by simp [h2], by simp⟩
  | succ m ih =>
    intro s hs r h
    unfold parseHexRest at h
    cases F : expectChar ':' s with
    | none => rw [F] at h; exact absurd h (by simp)
    | some t =>
      rw [F] at h
      simp only [Option.bind_eq_bind, Option.some_bind] at h
      cases E : fromCharsNat 16 65535 t with
      | none => rw [E] at h; exact absurd h (by simp)
      | some p =>
        obtain ⟨hv, s1⟩ := p
        rw [E] at h
        simp only [Option.some_bind] at h
        cases R : parseHexRest m s1 with
        | none => rw [R] at h; exact absurd h (by simp)
        | some q =>
          obtain ⟨hs', r'⟩ := q
          rw [R] at h
          simp only [Option.some_bind] at h
          injection h with h
          injection h with h1 h2
          have hst : s = ':' :: t := (expectChar_some _ _ _).mp F
          obtain ⟨pre1, _, hsp1, hd1, _, _⟩ := fromCharsNat_some _ _ _ _ _ E
          obtain ⟨pre2, hsp2, hd2⟩ := ih s1 hs' r' R
          refine ⟨':' :: (pre1 ++ pre2), ?_, ?_⟩
          · rw [hst, hsp1, hsp2, h2]
            simp
          · intro c hc
            simp only [List.mem_cons, List.mem_append] at hc
            rcases hc with hc | hc | hc
            · exact Or.inr hc
            · exact Or.inl (hd1 c hc)
            · exact hd2 c hc

theorem parseHextets_chars (s : List Char) (hs : List Nat)
    (h : parseHextets s = some hs) :
    ∀ c ∈ s, ((digitVal 16 c).isSome = true ∨ c = ':') := by
  unfold parseHextets at h
  cases E : fromCharsNat 16 65535 s with
  | none => rw [E] at h; exact absurd h (by simp)
  | some p =>
    obtain ⟨h0, s1⟩ := p
    rw [E] at h
    simp only [Option.bind_eq_bind, Option.some_bind] at h
    cases R : parseHexRest 7 s1 with
    | none => rw [R] at h; exact absurd h (by simp)
    | some q =>
      obtain ⟨hs', s2⟩ := q
      rw [R] at h
      simp only [Option.some_bind] at h
      split at h
      · rename_i hs2
        subst hs2
        obtain ⟨pre1, _, hsp1, hd1, _, _⟩ := fromCharsNat_some _ _ _ _ _ E
        obtain ⟨pre2, hsp2, hd2⟩ := parseHexRest_chars 7 s1 hs' [] R
        rw [List.append_nil] at hsp2
        rw [hsp1, hsp2]
        intro c hc
        rcases List.mem_append.mp hc with hc | hc
        · exact Or.inl (hd1 c hc)
        · exact hd2 c hc
      · exact absurd h (by simp)

theorem parseHextets_nil : parseHextets [] = none := by decide

/-! ## Occurrences of the double colon and of single characters -/

theorem dcAt_cons_succ (a : Char) (s : List Char) (p : Nat) :
    dcAt (a :: s) (p + 1) ↔ dcAt s p := by
  unfold dcAt
  rw [List.getElem?_cons_succ, List.getElem?_cons_succ]

theorem dcAt_zero_cons (a : Char) (s : List Char) :
    dcAt (a :: s) 0 ↔ (a = ':' ∧ s.head? = some ':') := by
  unfold dcAt
  rw [List.getElem?_cons_zero, List.getElem?_cons_succ, ← List.head?_eq_getElem?]
  simp

theorem findDC_spec : ∀ (s : List Char) (j : Nat), findDC s = some j → dcAt s j := by
  intro s
  induction s with
  | nil =>
    intro j h
    exact absurd h (by simp [findDC])
  | cons a rest ih =>
    intro j h
    unfold findDC at h
    split at h
    · rename_i hcond
      injection h with h
      subst h
      exact (dcAt_zero_cons a rest).mpr hcond
    · cases hf : findDC rest with
      | none => rw [hf] at h; exact absurd h (by simp)
      | some j' =>
        rw [hf] at h
        rw [Option.map_some'] at h
        injection h with h
        subst h
        exact (dcAt_cons_succ a rest j').mpr (ih j' hf)

theorem rfindDC_spec : ∀ (s : List Char) (j : Nat), rfindDC s = some j → dcAt s j := by
  intro s
  induction s with
  | nil =>
    intro j h
    exact absurd h (by simp [rfindDC])
  | cons a rest ih =>
    intro j h
    unfold rfindDC at h
    cases hf : rfindDC rest with
    | some j' =>
      rw [hf] at h
      injection h with h
      subst h
      exact (dcAt_cons_succ a rest j').mpr (ih j' hf)
    | none =>
      rw [hf] at h
      by_cases hcond : a = ':' ∧ rest.head? = some ':'
      · rw [if_pos hcond] at h
        injection h with h
        subst h
        exact (dcAt_zero_cons a rest).mpr hcond
      · rw [if_neg hcond] at h
        exact absurd h (by simp)

theorem dcAt_imp_findDC : ∀ (s : List Char) (p : Nat), dcAt s p →
    ∃ j, j ≤ p ∧ findDC s = some j := by
  intro s
  induction s with
  | nil =>
    intro p hp
    obtain ⟨h1, _⟩ := hp
    simp at h1
  | cons a rest ih =>
    intro p hp
    cases p with
    | zero =>
      obtain ⟨h1, h2⟩ := (dcAt_zero_cons a rest).mp hp
      refine ⟨0, Nat.le_refl 0, ?_⟩
      unfold findDC
      rw [if_pos ⟨h1, h2⟩]
    | succ q =>
      have hq := (dcAt_cons_succ a rest q).mp hp
      by_cases hcond : a = ':' ∧ rest.head? = some ':'
      · refine ⟨0, Nat.zero_le _, ?_⟩
        unfold findDC
        rw [if_pos hcond]
      · obtain ⟨j', hle, hf⟩ := ih q hq
        refine ⟨j' + 1, by omega, ?_⟩
        unfold findDC
        rw [if_neg hcond, hf]
        rfl

theorem dcAt_imp_rfindDC : ∀ (s : List Char) (p : Nat), dcAt s p →
    ∃ j, p ≤ j ∧ rfindDC s = some j := by
  intro s
  induction s with
  | nil =>
    intro p hp
    obtain ⟨h1, _⟩ := hp
    simp at h1
  | cons a rest ih =>
    intro p hp
    cases p with
    | zero =>
      cases hf : rfindDC rest with
      | some j' =>
        refine ⟨j' + 1, by omega, ?_⟩
        unfold rfindDC
        rw [hf]
      | none =>
        obtain ⟨h1, h2⟩ := (dcAt_zero_cons a rest).mp hp
        refine ⟨0, Nat.le_refl 0, ?_⟩
        unfold rfindDC
        rw [hf, if_pos ⟨h1, h2⟩]
    | succ q =>
      have hq := (dcAt_cons_succ a rest q).mp hp
      obtain ⟨j', hle, hf⟩ := ih q hq
      refine ⟨j' + 1, by omega, ?_⟩
      unfold rfindDC
      rw [hf]

theorem findCharIdx_spec : ∀ (s : List Char) (c : Char) (j : Nat),
    findCharIdx c s = some j → s[j]? = some c := by
  intro s
  induction s with
  | nil =>
    intro c j h
    exact absurd h (by simp [findCharIdx])
  | cons a rest ih =>
    intro c j h
    unfold findCharIdx at h
    split at h
    · rename_i hac
      injection h with h
      subst h
      subst hac
      exact List.getElem?_cons_zero
    · cases hf : findCharIdx c rest with
      | none => rw [hf] at h; exact absurd h (by simp)
      | some j' =>
        rw [hf] at h
        rw [Option.map_some'] at h
        injection h with h
        subst h
        rw [List.getElem?_cons_succ]
        exact ih c j' hf

theorem findCharIdx_none (c : Char) : ∀ (s : List Char),
    (∀ x ∈ s, x ≠ c) → findCharIdx c s = none := by
  intro s
  induction s with
  | nil => intro _; rfl
  | cons a rest ih =>
    intro h
    unfold findCharIdx
    rw [if_neg (h a (by simp)), ih (fun x hx => h x (by simp [hx]))]
    rfl

theorem rfindCharIdx_spec : ∀ (s : List Char) (c : Char) (j : Nat),
    rfindCharIdx c s = some j → s[j]? = some c := by
  intro s
  induction s with
  | nil =>
    intro c j h
    exact absurd h (by simp [rfindCharIdx])
  | cons a rest ih =>
    intro c j h
    unfold rfindCharIdx at h
    cases hf : rfindCharIdx c rest with
    | some j' =>
      rw [hf] at h
      injection h with h
      subst h
      rw [List.getElem?_cons_succ]
      exact ih c j' hf
    | none =>
      rw [hf] at h
      by_cases hac : a = c
      · rw [if_pos hac] at h
        injection h with h
        subst h
        subst hac
        exact List.getElem?_cons_zero
      · rw [if_neg hac] at h
        exact absurd h (by simp)

theorem rfindCharIdx_max : ∀ (s : List Char) (c : Char) (j : Nat),
    rfindCharIdx c s = some j → ∀ i, j < i → s[i]? ≠ some c := by
  intro s
  induction s with
  | nil =>
    intro c j h
    exact absurd h (by simp [rfindCharIdx])
  | cons a rest ih =>
    intro c j h i hij
    unfold rfindCharIdx at h
    cases hf : rfindCharIdx c rest with
    | some j' =>
      rw [hf] at h
      injection h with h
      subst h
      cases i with
      | zero => omega
      | succ i' =>
        rw [List.getElem?_cons_succ]
        exact ih c j' hf i' (by omega)
    | none =>
      rw [hf] at h
      by_cases hac : a = c
      · rw [if_pos hac] at h
        injection h with h
        subst h
        cases i with
        | zero => omega
        | succ i' =>
          rw [List.getElem?_cons_succ]
          intro hmem
          have : ∀ (t : List Char), rfindCharIdx c t = none → ∀ k : Nat, t[k]? ≠ some c := by
            intro t
            induction t with
            | nil => intro _ k; simp
            | cons b tb iht =>
              intro hn k
              unfold rfindCharIdx at hn
              cases hg : rfindCharIdx c tb with
              | some m => rw [hg] at hn; exact absurd hn (by simp)
              | none =>
                rw [hg] at hn
                by_cases hbc : b = c
                · rw [if_pos hbc] at hn
                  exact absurd hn (by simp)
                · rw [if_neg hbc] at hn
                  cases k with
                  | zero =>
                    rw [List.getElem?_cons_zero]
                    intro he
                    injection he with he
                    exact hbc he
                  | succ m =>
                    rw [List.getElem?_cons_succ]
                    exact iht hg m
          exact this rest hf i' hmem
      · rw [if_neg hac] at h
        exact absurd h (by simp)

/-! ## Structure of colon-joined hextet groups -/

theorem hex_ne_colon (c : Char) (h : (digitVal 16 c).isSome = true) : c ≠ ':' := by
  intro he
  subst he
  rw [digitVal_colon] at h
  simp at h

theorem findDC_none_of_no_colon : ∀ (s : List Char), (∀ c ∈ s, c ≠ ':') →
    findDC s = none := by
  intro s
  induction s with
  | nil => intro _; rfl
  | cons a rest ih =>
    intro h
    unfold findDC
    rw [if_neg (by intro hc; exact h a (by simp) hc.1)]
    rw [ih (fun x hx => h x (by simp [hx]))]
    rfl

theorem listFlat_colon_cons (g : List Char) (rest : List (List Char))
    (h : rest ≠ []) :
    intercColon (g :: rest) = g ++ ':' :: intercColon rest := by
  cases rest with
  | nil => exact absurd rfl h
  | cons r rs => rfl

theorem interc_append (xs ys : List (List Char)) (hx : xs ≠ []) (hy : ys ≠ []) :
    intercColon (xs ++ ys) = intercColon xs ++ ':' :: intercColon ys := by
  induction xs with
  | nil => exact absurd rfl hx
  | cons g t ih =>
    cases t with
    | nil =>
      rw [List.cons_append, List.nil_append,
        listFlat_colon_cons g ys hy]
      simp [intercColon, listFlat]
    | cons g2 t2 =>
      rw [List.cons_append,
        listFlat_colon_cons g (g2 :: t2 ++ ys) (by simp),
        listFlat_colon_cons g (g2 :: t2) (by simp),
        ih (by simp)]
      simp

theorem interc_chars : ∀ (gs : List (List Char)) (c : Char),
    c ∈ intercColon gs → c = ':' ∨ ∃ g ∈ gs, c ∈ g := by
  intro gs
  induction gs with
  | nil =>
    intro c hc
    simp [intercColon] at hc
  | cons g t ih =>
    intro c hc
    cases t with
    | nil =>
      simp only [intercColon, listFlat, List.append_nil] at hc
      exact Or.inr ⟨g, by simp, hc⟩
    | cons g2 t2 =>
      rw [listFlat_colon_cons g (g2 :: t2) (by simp)] at hc
      rcases List.mem_append.mp hc with hc | hc
      · exact Or.inr ⟨g, by simp, hc⟩
      · rcases List.mem_cons.mp hc with hc | hc
        · exact Or.inl hc
        · rcases ih c hc with hc | ⟨g', hg', hcg⟩
          · exact Or.inl hc
          · exact Or.inr ⟨g', by simp [hg'], hcg⟩

theorem interc_count : ∀ (gs : List (List Char)), gs ≠ [] →
    (∀ g ∈ gs, ∀ c ∈ g, c ≠ ':') →
    (intercColon gs).count ':' = gs.length - 1 := by
  intro gs
  induction gs with
  | nil => intro h _; exact absurd rfl h
  | cons g t ih =>
    intro _ hnc
    have hg0 : g.count ':' = 0 :=
      List.count_eq_zero.mpr (fun hc => hnc g (by simp) ':' hc rfl)
    cases t with
    | nil =>
      simp [intercColon, listFlat, hg0]
    | cons g2 t2 =>
      rw [listFlat_colon_cons g (g2 :: t2) (by simp), List.count_append,
        List.count_cons, ih (by simp) (fun x hx c hc => hnc x (by simp [hx]) c hc), hg0]
      simp

theorem interc_ne_nil (gs : List (List Char)) (hne : gs ≠ [])
    (hv : ∀ g ∈ gs, g ≠ []) : intercColon gs ≠ [] := by
  cases gs with
  | nil => exact absurd rfl hne
  | cons g t =>
    have hg := hv g (by simp)
    cases hgc : g with
    | nil => exact absurd hgc hg
    | cons x xs =>
      cases t with
      | nil => simp [intercColon, listFlat, hgc]
      | cons g2 t2 =>
        rw [listFlat_colon_cons (x :: xs) (g2 :: t2) (by simp)]
        simp

theorem interc_head_hex (gs : List (List Char)) (hne : gs ≠ [])
    (hv : ∀ g ∈ gs, validGroup g) :
    ∃ c, (intercColon gs)[0]? = some c ∧ (digitVal 16 c).isSome = true := by
  cases gs with
  | nil => exact absurd rfl hne
  | cons g t =>
    obtain ⟨hgne, hdig, _⟩ := hv g (by simp)
    cases hgc : g with
    | nil => exact absurd hgc hgne
    | cons x xs =>
      have hx : (digitVal 16 x).isSome = true := hdig x (by rw [hgc]; simp)
      cases t with
      | nil =>
        refine ⟨x, ?_, hx⟩
        simp [intercColon, listFlat, hgc]
      | cons g2 t2 =>
        refine ⟨x, ?_, hx⟩
        rw [listFlat_colon_cons (x :: xs) (g2 :: t2) (by simp)]
        simp

theorem interc_last_hex : ∀ (gs : List (List Char)), gs ≠ [] →
    (∀ g ∈ gs, validGroup g) →
    ∃ c, (intercColon gs)[(intercColon gs).length - 1]? = some c ∧
      (digitVal 16 c).isSome = true := by
  intro gs
  induction gs with
  | nil => intro h _; exact absurd rfl h
  | cons g t ih =>
    intro _ hv
    obtain ⟨hgne, hdig, _⟩ := hv g (by simp)
    cases t with
    | nil =>
      have hi : intercColon [g] = g := by simp [intercColon, listFlat]
      rw [hi]
      have hlen : g.length - 1 < g.length := by
        cases hgc : g with
        | nil => exact absurd hgc hgne
        | cons x xs => simp
      refine ⟨g[g.length - 1], ?_, ?_⟩
      · exact List.getElem?_eq_some.mpr ⟨hlen, rfl⟩
      · exact hdig _ (List.getElem_mem hlen)
    | cons g2 t2 =>
      have hrec : intercColon (g2 :: t2) ≠ [] :=
        interc_ne_nil (g2 :: t2) (by simp) (fun x hx => (hv x (by simp [hx])).1)
      obtain ⟨c, hc1, hc2⟩ := ih (by simp) (fun x hx => hv x (by simp [hx]))
      have hsplit := listFlat_colon_cons g (g2 :: t2) (by simp)
      refine ⟨c, ?_, hc2⟩
      rw [hsplit]
      have hlen : (g ++ ':' :: intercColon (g2 :: t2)).length =
          g.length + 1 + (intercColon (g2 :: t2)).length := by
        simp
        omega
      rw [hlen]
      have hge : g.length ≤ g.length + 1 + (intercColon (g2 :: t2)).length - 1 := by
        omega
      rw [List.getElem?_append_right hge]
      have hpos : (intercColon (g2 :: t2)).length ≥ 1 := by
        cases hi : intercColon (g2 :: t2) with
        | nil => exact absurd hi hrec
        | cons z zs => simp
      have hidx : g.length + 1 + (intercColon (g2 :: t2)).length - 1 - g.length =
          ((intercColon (g2 :: t2)).length - 1) + 1 := by
        omega
      rw [hidx, List.getElem?_cons_succ]
      exact hc1

theorem listFlat_append (f : α → List β) : ∀ (xs ys : List α),
    listFlat f (xs ++ ys) = listFlat f xs ++ listFlat f ys := by
  intro xs ys
  induction xs with
  | nil => rfl
  | cons x t ih => simp [listFlat, ih]

theorem findDC_cons_ne (c : Char) (R : List Char)
    (h : ¬(c = ':' ∧ R.head? = some ':')) :
    findDC (c :: R) = (findDC R).map (· + 1) := by
  rw [findDC, if_neg h]

theorem findDC_append_group : ∀ (g : List Char),
    (∀ c ∈ g, (digitVal 16 c).isSome = true) →
    ∀ (R : List Char), R.head? ≠ some ':' → g ≠ [] →
    findDC (g ++ ':' :: R) = (findDC R).map (· + (g.length + 1)) := by
  intro g
  induction g with
  | nil => intro _ R _ h; exact absurd rfl h
  | cons x g' ih =>
    intro hdig R hR _
    have hx : x ≠ ':' := hex_ne_colon x (hdig x (by simp))
    cases g' with
    | nil =>
      rw [show [x] ++ ':' :: R = x :: ':' :: R from rfl]
      rw [findDC_cons_ne x (':' :: R) (by intro hc; exact hx hc.1)]
      rw [findDC_cons_ne ':' R (by intro hc; exact hR hc.2)]
      cases hf : findDC R with
      | none => rfl
      | some j =>
        simp only [Option.map_some', Option.some.injEq, List.length_cons,
          List.length_nil]
    | cons y g'' =>
      rw [List.cons_append]
      rw [findDC_cons_ne x (y :: g'' ++ ':' :: R) (by intro hc; exact hx hc.1)]
      rw [ih (fun c hc => hdig c (by simp [hc])) R hR (by simp)]
      cases hf : findDC R with
      | none => rfl
      | some j =>
        simp only [Option.map_some', Option.some.injEq, List.length_cons]
        omega

theorem interc_no_dc : ∀ (gs : List (List Char)), (∀ g ∈ gs, validGroup g) →
    findDC (intercColon gs) = none := by
  intro gs
  induction gs with
  | nil => intro _; rfl
  | cons g t ih =>
    intro hv
    obtain ⟨hgne, hdig, _⟩ := hv g (by simp)
    cases t with
    | nil =>
      have hi : intercColon [g] = g := by simp [intercColon, listFlat]
      rw [hi]
      exact findDC_none_of_no_colon g (fun c hc => hex_ne_colon c (hdig c hc))
    | cons g2 t2 =>
      rw [listFlat_colon_cons g (g2 :: t2) (by simp)]
      have hhead : (intercColon (g2 :: t2)).head? ≠ some ':' := by
        obtain ⟨c, hc1, hc2⟩ := interc_head_hex (g2 :: t2) (by simp)
          (fun x hx => hv x (by simp [hx]))
        rw [List.head?_eq_getElem?, hc1]
        intro he
        injection he with he
        exact hex_ne_colon c hc2 he
      rw [findDC_append_group g hdig _ hhead hgne,
        ih (fun x hx => hv x (by simp [hx]))]
      rfl

theorem dc_boundary (X Y : List Char) : dcAt (X ++ ':' :: ':' :: Y) X.length := by
  constructor
  · rw [List.getElem?_append_right (Nat.le_refl _)]
    simp
  · rw [List.getElem?_append_right (by omega)]
    rw [show X.length + 1 - X.length = 1 by omega]
    simp

theorem findDC_boundary (X Y : List Char) (hX : findDC X = none)
    (hlast : ∀ c, X[X.length - 1]? = some c → c ≠ ':') :
    findDC (X ++ ':' :: ':' :: Y) = some X.length := by
  obtain ⟨j, hle, hf⟩ := dcAt_imp_findDC _ _ (dc_boundary X Y)
  have hdcj := findDC_spec _ _ hf
  rcases Nat.lt_or_ge j X.length with hj | hj
  · exfalso
    have h1 : X[j]? = some ':' := by
      have h := hdcj.1
      rwa [List.getElem?_append_left (by omega)] at h
    rcases Nat.lt_or_ge (j + 1) X.length with hj1 | hj1
    · have h2 : X[j + 1]? = some ':' := by
        have h := hdcj.2
        rwa [List.getElem?_append_left hj1] at h
      obtain ⟨j', _, hfx⟩ := dcAt_imp_findDC X j ⟨h1, h2⟩
      rw [hX] at hfx
      exact absurd hfx (by simp)
    · have hj2 : j + 1 = X.length := by omega
      have hlst : X[X.length - 1]? = some ':' := by
        rw [show X.length - 1 = j by omega]
        exact h1
      exact hlast ':' hlst rfl
  · rw [hf, show j = X.length by omega]

theorem rfindDC_boundary (X Y : List Char) (hY : findDC Y = none)
    (hhead : Y.head? ≠ some ':') :
    rfindDC (X ++ ':' :: ':' :: Y) = some X.length := by
  obtain ⟨j, hge, hf⟩ := dcAt_imp_rfindDC _ _ (dc_boundary X Y)
  have hdcj := rfindDC_spec _ _ hf
  rcases Nat.lt_or_ge X.length j with hj | hj
  · exfalso
    rcases Nat.lt_or_ge j (X.length + 2) with hj1 | hj1
    · have hj2 : j = X.length + 1 := by omega
      have h2 := hdcj.2
      rw [hj2, List.getElem?_append_right (by omega)] at h2
      rw [show X.length + 1 + 1 - X.length = 2 by omega] at h2
      rw [show (2 : Nat) = 0 + 1 + 1 by omega, List.getElem?_cons_succ,
        List.getElem?_cons_succ] at h2
      rw [← List.head?_eq_getElem?] at h2
      exact hhead h2
    · have h1 := hdcj.1
      have h2 := hdcj.2
      rw [List.getElem?_append_right (by omega)] at h1
      rw [List.getElem?_append_right (by omega)] at h2
      rw [show j - X.length = (j - X.length - 2) + 1 + 1 by omega,
        List.getElem?_cons_succ, List.getElem?_cons_succ] at h1
      rw [show j + 1 - X.length = (j - X.length - 2) + 1 + 1 + 1 by omega,
        List.getElem?_cons_succ, List.getElem?_cons_succ] at h2
      obtain ⟨j', _, hfy⟩ := dcAt_imp_findDC Y (j - X.length - 2) ⟨h1, h2⟩
      rw [hY] at hfy
      exact absurd hfy (by simp)
  · rw [hf, show j = X.length by omega]

theorem take_boundary (X Y : List Char) :
    (X ++ ':' :: ':' :: Y).take (X.length + 1) = X ++ [':'] := by
  rw [List.take_append_eq_append_take, List.take_of_length_le (by omega),
    show X.length + 1 - X.length = 1 by omega]
  rfl

theorem drop_boundary (X Y : List Char) :
    (X ++ ':' :: ':' :: Y).drop (X.length + 1) = ':' :: Y := by
  rw [List.drop_append_eq_append_drop, List.drop_of_length_le (by omega),
    show X.length + 1 - X.length = 1 by omega]
  rfl

theorem zg_interc : ∀ (m : Nat),
    listFlat (fun _ => ['0', ':']) (List.range m) ++ ['0'] =
      intercColon (List.replicate (m + 1) ['0']) := by
  intro m
  induction m with
  | zero => decide
  | succ n ih =>
    rw [List.range_succ, listFlat_append, List.replicate_succ',
      interc_append (List.replicate (n + 1) ['0']) [['0']] (by simp) (by simp),
      ← ih]
    show (listFlat (fun _ => ['0', ':']) (List.range n) ++ (['0', ':'] ++ [])) ++ ['0'] =
      (listFlat (fun _ => ['0', ':']) (List.range n) ++ ['0']) ++ ':' :: intercColon [['0']]
    have : intercColon [['0']] = ['0'] := by decide
    rw [this]
    simp

theorem zeroGroups_nat (k : Nat) (hk : 1 ≤ k) :
    zeroGroups ((k : Nat) : Int) = intercColon (List.replicate k ['0']) := by
  unfold zeroGroups
  have harg : (((k : Nat) : Int) - 1).toNat = k - 1 := by omega
  rw [harg]
  have hk1 : k - 1 + 1 = k := by omega
  rw [← hk1]
  exact zg_interc (k - 1)

theorem expand_general (s : List Char) (p : Nat)
    (hf : findDC s = some p) (hr : rfindDC s = some p) :
    ExpandIPv6DoubleColon s =
      (if p ≠ 0 then s.take (p + 1) else []) ++
        zeroGroups
          (if p ≠ s.length - 2 then
            (if p ≠ 0 then (8 : Int) - ((s.count ':' : Int) - 2) - 1
             else (8 : Int) - ((s.count ':' : Int) - 2)) - 1
           else
            (if p ≠ 0 then (8 : Int) - ((s.count ':' : Int) - 2) - 1
             else (8 : Int) - ((s.count ':' : Int) - 2))) ++
        (if p ≠ s.length - 2 then s.drop (p + 1) else []) := by
  unfold ExpandIPv6DoubleColon
  split
  · rename_i heq
    rw [heq] at hf
    exact absurd hf (by simp)
  · rename_i p' heq
    rw [heq] at hf
    injection hf with hf
    subst hf
    rw [if_neg (by rw [hr]; simp)]

theorem expand_two_dc (s : List Char) (p₁ p₂ : Nat) (hlt : p₁ < p₂)
    (h₁ : dcAt s p₁) (h₂ : dcAt s p₂) : ExpandIPv6DoubleColon s = [] := by
  obtain ⟨j₁, hj₁, hf₁⟩ := dcAt_imp_findDC s p₁ h₁
  obtain ⟨j₂, hj₂, hf₂⟩ := dcAt_imp_rfindDC s p₂ h₂
  unfold ExpandIPv6DoubleColon
  split
  · rename_i heq
    rw [heq] at hf₁
    exact absurd hf₁ (by simp)
  · rename_i p' heq
    rw [heq] at hf₁
    injection hf₁ with hf₁
    subst hf₁
    rw [if_pos]
    rw [hf₂]
    intro hc
    injection hc with hc
    omega

theorem expand_interc (g1 g2 : List (List Char))
    (h1 : ∀ g ∈ g1, validGroup g) (h2 : ∀ g ∈ g2, validGroup g)
    (hlen : g1.length + g2.length ≤ 7) :
    ExpandIPv6DoubleColon (intercColon g1 ++ ':' :: ':' :: intercColon g2) =
      intercColon (g1 ++ List.replicate (8 - g1.length - g2.length) ['0'] ++ g2) := by
  have hfX : findDC (intercColon g1) = none := interc_no_dc g1 h1
  have hfY : findDC (intercColon g2) = none := interc_no_dc g2 h2
  have hlastX : ∀ c, (intercColon g1)[(intercColon g1).length - 1]? = some c →
      c ≠ ':' := by
    by_cases hg1 : g1 = []
    · subst hg1
      intro c hc
      simp [intercColon] at hc
    · obtain ⟨c₀, hc₀, hhex⟩ := interc_last_hex g1 hg1 h1
      intro c hc
      rw [hc₀] at hc
      injection hc with hc
      subst hc
      exact hex_ne_colon _ hhex
  have hheadY : (intercColon g2).head? ≠ some ':' := by
    by_cases hg2 : g2 = []
    · subst hg2
      simp [intercColon]
    · obtain ⟨c₀, hc₀, hhex⟩ := interc_head_hex g2 hg2 h2
      rw [List.head?_eq_getElem?, hc₀]
      intro he
      injection he with he
      exact hex_ne_colon c₀ hhex he
  have hfind := findDC_boundary _ (intercColon g2) hfX hlastX
  have hrfind := rfindDC_boundary (intercColon g1) _ hfY hheadY
  rw [expand_general _ _ hfind hrfind]
  have hslen : (intercColon g1 ++ ':' :: ':' :: intercColon g2).length =
      (intercColon g1).length + 2 + (intercColon g2).length := by
    simp
    omega
  have hcount : (intercColon g1 ++ ':' :: ':' :: intercColon g2).count ':' =
      (intercColon g1).count ':' + 2 + (intercColon g2).count ':' := by
    simp [List.count_append, List.count_cons]
    omega
  by_cases hg1 : g1 = []
  · by_cases hg2 : g2 = []
    · subst hg1; subst hg2
      decide
    · subst hg1
      have hb : 1 ≤ g2.length := by
        cases g2 with
        | nil => exact absurd rfl hg2
        | cons x t => simp
      have hYne : intercColon g2 ≠ [] :=
        interc_ne_nil g2 hg2 (fun g hg => (h2 g hg).1)
      have hYlen : (intercColon g2).length ≠ 0 := by
        intro h
        exact hYne (List.length_eq_zero.mp h)
      have hcY : (intercColon g2).count ':' = g2.length - 1 :=
        interc_count g2 hg2
          (fun g hg c hc => hex_ne_colon c ((h2 g hg).2.1 c hc))
      have hcX : (intercColon ([] : List (List Char))).count ':' = 0 := by decide
      have hp0 : (intercColon ([] : List (List Char))).length = 0 := by decide
      rw [if_neg (by rw [hp0]; simp), if_pos (by rw [hp0, hslen]; omega),
        if_neg (by rw [hp0]; simp), if_pos (by rw [hp0, hslen]; omega)]
      have harg : (8 : Int) -
          (((intercColon ([] : List (List Char)) ++
            ':' :: ':' :: intercColon g2).count ':' : Int) - 2) - 1 =
          ((8 - g2.length : Nat) : Int) := by
        rw [hcount, hcX, hcY]
        omega
      rw [harg, zeroGroups_nat (8 - g2.length) (by omega), drop_boundary]
      have hrep : List.replicate (8 - g2.length) ['0'] ≠ [] := by
        intro h
        have := congrArg List.length h
        simp at this
        omega
      rw [show ([] : List (List Char)) ++
          List.replicate (8 - [].length - g2.length) ['0'] ++ g2 =
          List.replicate (8 - g2.length) ['0'] ++ g2 by simp]
      rw [interc_append (List.replicate (8 - g2.length) ['0']) g2 hrep hg2]
      simp
  · have ha : 1 ≤ g1.length := by
      cases g1 with
      | nil => exact absurd rfl hg1
      | cons x t => simp
    have hXne : intercColon g1 ≠ [] :=
      interc_ne_nil g1 hg1 (fun g hg => (h1 g hg).1)
    have hXlen : (intercColon g1).length ≠ 0 := by
      intro h
      exact hXne (List.length_eq_zero.mp h)
    have hcX : (intercColon g1).count ':' = g1.length - 1 :=
      interc_count g1 hg1
        (fun g hg c hc => hex_ne_colon c ((h1 g hg).2.1 c hc))
    by_cases hg2 : g2 = []
    · subst hg2
      have hcY : (intercColon ([] : List (List Char))).count ':' = 0 := by decide
      have hY0 : (intercColon ([] : List (List Char))).length = 0 := by decide
      rw [if_pos hXlen, if_neg (by rw [hslen, hY0]; omega), if_pos hXlen,
        if_neg (by rw [hslen, hY0]; omega)]
      have harg : (8 : Int) -
          (((intercColon g1 ++
            ':' :: ':' :: intercColon ([] : List (List Char))).count ':' : Int)
            - 2) - 1 =
          ((8 - g1.length : Nat) : Int) := by
        rw [hcount, hcX, hcY]
        omega
      rw [harg, zeroGroups_nat (8 - g1.length) (by omega), take_boundary]
      have hrep : List.replicate (8 - g1.length) ['0'] ≠ [] := by
        intro h
        have := congrArg List.length h
        simp at this
        omega
      rw [show g1 ++ List.replicate (8 - g1.length - [].length) ['0'] ++
          ([] : List (List Char)) =
          g1 ++ List.replicate (8 - g1.length) ['0'] by simp]
      rw [interc_append g1 (List.replicate (8 - g1.length) ['0']) hg1 hrep]
      simp
    · have hb : 1 ≤ g2.length := by
        cases g2 with
        | nil => exact absurd rfl hg2
        | cons x t => simp
      have hYne : intercColon g2 ≠ [] :=
        interc_ne_nil g2 hg2 (fun g hg => (h2 g hg).1)
      have hYlen : (intercColon g2).length ≠ 0 := by
        intro h
        exact hYne (List.length_eq_zero.mp h)
      have hcY : (intercColon g2).count ':' = g2.length - 1 :=
        interc_count g2 hg2
          (fun g hg c hc => hex_ne_colon c ((h2 g hg).2.1 c hc))
      rw [if_pos hXlen, if_pos (by rw [hslen]; omega), if_pos hXlen,
        if_pos (by rw [hslen]; omega)]
      have harg : (8 : Int) -
          (((intercColon g1 ++ ':' :: ':' :: intercColon g2).count ':' : Int)
            - 2) - 1 - 1 =
          ((8 - g1.length - g2.length : Nat) : Int) := by
        rw [hcount, hcX, hcY]
        omega
      rw [harg, zeroGroups_nat (8 - g1.length - g2.length) (by omega),
        take_boundary, drop_boundary]
      have hrep : List.replicate (8 - g1.length - g2.length) ['0'] ≠ [] := by
        intro h
        have := congrArg List.length h
        simp at this
        omega
      rw [List.append_assoc g1,
        interc_append g1 (List.replicate (8 - g1.length - g2.length) ['0'] ++ g2)
          hg1 (by simp [hrep]),
        interc_append (List.replicate (8 - g1.length - g2.length) ['0']) g2
          hrep hg2]
      simp

theorem parseHexRest_interc : ∀ (gs : List (List Char)),
    (∀ g ∈ gs, validGroup g) →
    parseHexRest gs.length (listFlat (fun h => ':' :: h) gs) =
      some (gs.map groupVal, []) := by
  intro gs
  induction gs with
  | nil => intro _; rfl
  | cons g t ih =>
    intro hv
    obtain ⟨hgne, hdig, hle⟩ := hv g (by simp)
    have hrest : ∀ c, (listFlat (fun h => ':' :: h) t).head? = some c →
        digitVal 16 c = none := by
      cases t with
      | nil =>
        intro c hc
        simp [listFlat] at hc
      | cons g2 t2 =>
        intro c hc
        simp [listFlat] at hc
        rw [← hc]
        exact digitVal_colon 16
    have e2 : fromCharsNat 16 65535 (g ++ listFlat (fun h => ':' :: h) t) =
        some (groupVal g, listFlat (fun h => ':' :: h) t) :=
      fromCharsNat_render 16 65535 g _ hgne hdig hrest hle
    show parseHexRest (t.length + 1) (listFlat (fun h => ':' :: h) (g :: t)) = _
    rw [show listFlat (fun h => ':' :: h) (g :: t) =
      ':' :: (g ++ listFlat (fun h => ':' :: h) t) from rfl]
    unfold parseHexRest
    rw [show expectChar ':' (':' :: (g ++ listFlat (fun h => ':' :: h) t)) =
      some (g ++ listFlat (fun h => ':' :: h) t) from by simp [expectChar]]
    simp only [Option.bind_eq_bind, Option.some_bind]
    rw [e2]
    simp only [Option.some_bind]
    rw [ih (fun x hx => hv x (by simp [hx]))]
    simp

theorem parseHextets_interc (gs : List (List Char))
    (hv : ∀ g ∈ gs, validGroup g) (hlen : gs.length = 8) :
    parseHextets (intercColon gs) = some (gs.map groupVal) := by
  cases gs with
  | nil => simp at hlen
  | cons g t =>
    obtain ⟨hgne, hdig, hle⟩ := hv g (by simp)
    have ht7 : t.length = 7 := by
      simp at hlen
      omega
    have hrest : ∀ c, (listFlat (fun h => ':' :: h) t).head? = some c →
        digitVal 16 c = none := by
      cases t with
      | nil =>
        intro c hc
        simp [listFlat] at hc
      | cons g2 t2 =>
        intro c hc
        simp [listFlat] at hc
        rw [← hc]
        exact digitVal_colon 16
    unfold parseHextets
    rw [show intercColon (g :: t) = g ++ listFlat (fun h => ':' :: h) t from rfl]
    rw [fromCharsNat_render 16 65535 g _ hgne hdig hrest hle]
    simp only [Option.bind_eq_bind, Option.some_bind]
    rw [← ht7, parseHexRest_interc t (fun x hx => hv x (by simp [hx]))]
    simp
    rfl

theorem resolveScopeId_colon (os : OsEnv) (hwf : WFos os) (name : List Char)
    (hc : ':' ∈ name) : resolveScopeId os name = 0 := by
  unfold resolveScopeId
  have hn2i : if_nametoindex os name = 0 := by
    unfold if_nametoindex
    have hfind : os.ifaces.find? (fun p => decide (p.1 = name)) = none := by
      rw [List.find?_eq_none]
      intro p hp
      simp only [decide_eq_true_eq]
      intro he
      exact (hwf p hp ':' (he.symm ▸ hc)).1 rfl
    rw [hfind]
  rw [hn2i]
  rw [if_neg (by simp)]
  cases hfc : fromCharsNat 10 4294967295 name with
  | none => rfl
  | some p =>
    obtain ⟨v, r⟩ := p
    obtain ⟨pre, hpne, hsplit, hdig, _, _⟩ :=
      fromCharsNat_some 10 4294967295 name v r hfc
    have hrne : r ≠ [] := by
      intro hr
      subst hr
      rw [List.append_nil] at hsplit
      subst hsplit
      have hd := hdig ':' hc
      rw [digitVal_colon] at hd
      simp at hd
    show (if r = [] ∧ v > 0 then v else 0) = 0
    rw [if_neg (by simp [hrne])]

theorem Parse_eq_ParseV6 (os : OsEnv) (s : List Char) (hv4 : ParseV4 s = none) :
    IPAddress.Parse os s = ParseV6 os s := by
  unfold IPAddress.Parse
  split
  · rename_i a heq
    rw [hv4] at heq
    exact absurd heq (by simp)
  · rfl

theorem ParseV6_nopct (os : OsEnv) (s : List Char)
    (hpct : findCharIdx '%' s = none) : ParseV6 os s = parseV6core s := by
  unfold ParseV6
  split
  · rfl
  · rename_i p heq
    rw [hpct] at heq
    exact absurd heq (by simp)

theorem ParseV6_pct_none (os : OsEnv) (s : List Char) (q : Nat)
    (hpct : findCharIdx '%' s = some q)
    (h0 : resolveScopeId os (s.drop (q + 1)) = 0 ∨
      parseV6core (s.take q) = none) :
    ParseV6 os s = none := by
  unfold ParseV6
  split
  · rename_i heq
    rw [hpct] at heq
    exact absurd heq (by simp)
  · rename_i p heq
    rw [hpct] at heq
    injection heq with heq
    subst heq
    split
    · show (if resolveScopeId os (s.drop (q + 1)) = 0 then none
        else (none : Option IPAddress)) = none
      split
      · rfl
      · rfl
    · rename_i a heq2
      rcases h0 with h0 | h0
      · show (if resolveScopeId os (s.drop (q + 1)) = 0 then none
          else if a.IsLinkLocal = true then
            some { a with scope_id := resolveScopeId os (s.drop (q + 1)) }
          else none) = none
        rw [if_pos h0]
      · rw [h0] at heq2
        exact absurd heq2 (by simp)

/-! ## C4: double-colon expansion -/

/-- C4: a string with two distinct `::` occurrences is rejected by
`IPAddress::Parse` (the expansion helper returns an ill-formatted string and
the hextet loop fails); and for any split of fewer than eight valid hextet
groups around a single `::`, parsing succeeds and fills the gap with exactly
`8 - a - b` zero groups, so that the textual groups land at the outer ends
of the eight-group address. -/
theorem C4_double_colon_expansion (os : OsEnv) :
    (WFos os →
      ∀ (s : List Char) (p₁ p₂ : Nat), p₁ < p₂ → dcAt s p₁ → dcAt s p₂ →
        IPAddress.Parse os s = none) ∧
    (∀ (g1 g2 : List (List Char)), (∀ g ∈ g1, validGroup g) →
      (∀ g ∈ g2, validGroup g) → g1.length + g2.length ≤ 7 →
      IPAddress.Parse os (intercColon g1 ++ ':' :: ':' :: intercColon g2) =
        some (mkV6FromHextets (g1.map groupVal ++
          List.replicate (8 - g1.length - g2.length) 0 ++ g2.map groupVal))) := by
  constructor
  · intro hwf s p₁ p₂ hlt h₁ h₂
    have hcolon : ':' ∈ s := List.getElem?_mem h₁.1
    have hv4 : ParseV4 s = none :=
      ParseV4_none_of_mem s ':' hcolon (digitVal_colon 10) (by decide)
    rw [Parse_eq_ParseV6 os s hv4]
    cases hpct : findCharIdx '%' s with
    | none =>
      rw [ParseV6_nopct os s hpct]
      unfold parseV6core
      rw [expand_two_dc s p₁ p₂ hlt h₁ h₂, parseHextets_nil]
      rfl
    | some q =>
      have hq : s[q]? = some '%' := findCharIdx_spec s '%' q hpct
      have hne : ∀ p : Nat, dcAt s p → p ≠ q ∧ p + 1 ≠ q := by
        intro p hp
        obtain ⟨ha, hb⟩ := hp
        constructor
        · intro he
          rw [he, hq] at ha
          injection ha with ha
          exact absurd ha (by decide)
        · intro he
          rw [he, hq] at hb
          injection hb with hb
          exact absurd hb (by decide)
      rcases Nat.lt_or_ge q p₂ with hq2 | hq2
      · have hmem : ':' ∈ s.drop (q + 1) := by
          have hg : (s.drop (q + 1))[p₂ - (q + 1)]? = some ':' := by
            rw [List.getElem?_drop]
            rw [show q + 1 + (p₂ - (q + 1)) = p₂ by omega]
            exact h₂.1
          exact List.getElem?_mem hg
        exact ParseV6_pct_none os s q hpct
          (Or.inl (resolveScopeId_colon os hwf _ hmem))
      · have h2q : p₂ + 1 < q := by
          have := hne p₂ h₂
          omega
        have h1q : p₁ + 1 < q := by omega
        have hd1 : dcAt (s.take q) p₁ := by
          constructor
          · rw [List.getElem?_take, if_pos (by omega)]
            exact h₁.1
          · rw [List.getElem?_take, if_pos (by omega)]
            exact h₁.2
        have hd2 : dcAt (s.take q) p₂ := by
          constructor
          · rw [List.getElem?_take, if_pos (by omega)]
            exact h₂.1
          · rw [List.getElem?_take, if_pos (by omega)]
            exact h₂.2
        have hcore : parseV6core (s.take q) = none := by
          unfold parseV6core
          rw [expand_two_dc _ p₁ p₂ hlt hd1 hd2, parseHextets_nil]
          rfl
        exact ParseV6_pct_none os s q hpct (Or.inr hcore)
  · intro g1 g2 h1 h2 hlen
    have hcolon : ':' ∈ intercColon g1 ++ ':' :: ':' :: intercColon g2 := by
      simp
    have hv4 : ParseV4 (intercColon g1 ++ ':' :: ':' :: intercColon g2) = none :=
      ParseV4_none_of_mem _ ':' hcolon (digitVal_colon 10) (by decide)
    rw [Parse_eq_ParseV6 os _ hv4]
    have hpct : findCharIdx '%'
        (intercColon g1 ++ ':' :: ':' :: intercColon g2) = none := by
      apply findCharIdx_none
      intro x hx
      have hclass : (digitVal 16 x).isSome = true ∨ x = ':' := by
        rcases List.mem_append.mp hx with hx | hx
        · rcases interc_chars g1 x hx with h | ⟨g, hg, hxg⟩
          · exact Or.inr h
          · exact Or.inl ((h1 g hg).2.1 x hxg)
        · rcases hx with _ | ⟨_, hx⟩
          · exact Or.inr rfl
          · rcases hx with _ | ⟨_, hx⟩
            · exact Or.inr rfl
            · rcases interc_chars g2 x hx with h | ⟨g, hg, hxg⟩
              · exact Or.inr h
              · exact Or.inl ((h2 g hg).2.1 x hxg)
      intro he
      subst he
      rcases hclass with h | h
      · rw [show digitVal 16 '%' = none from by decide] at h
        exact absurd h (by simp)
      · exact absurd h (by decide)
    rw [ParseV6_nopct os _ hpct]
    unfold parseV6core
    rw [expand_interc g1 g2 h1 h2 hlen]
    have hrepv : ∀ g ∈ g1 ++ List.replicate (8 - g1.length - g2.length) ['0']
        ++ g2, validGroup g := by
      intro g hg
      rcases List.mem_append.mp hg with hg | hg
      · rcases List.mem_append.mp hg with hg | hg
        · exact h1 g hg
        · rw [List.eq_of_mem_replicate hg]
          exact ⟨by simp, by decide, by decide⟩
      · exact h2 g hg
    have hreplen : (g1 ++ List.replicate (8 - g1.length - g2.length) ['0']
        ++ g2).length = 8 := by
      simp
      omega
    rw [parseHextets_interc _ hrepv hreplen]
    rw [Option.map_some']
    rw [List.map_append, List.map_append, List.map_replicate,
      show groupVal ['0'] = 0 from by decide]

theorem C4_double_colon_expansion_witness :
    IPAddress.Parse ⟨[]⟩ ['1', ':', ':', '2', ':', ':', '3'] = none ∧
    IPAddress.Parse ⟨[]⟩
        (intercColon [['a', 'b', 'c', 'd']] ++ ':' :: ':' ::
          intercColon [['1', '0', 'f', 'e'], ['d', 'b', 'c', 'a']]) =
      some (mkV6FromHextets ([['a', 'b', 'c', 'd']].map groupVal ++
        List.replicate (8 - [['a', 'b', 'c', 'd']].length -
          [['1', '0', 'f', 'e'], ['d', 'b', 'c', 'a']].length) 0 ++
        [['1', '0', 'f', 'e'], ['d', 'b', 'c', 'a']].map groupVal)) := by
  constructor
  · exact (C4_double_colon_expansion ⟨[]⟩).1 (by decide)
      ['1', ':', ':', '2', ':', ':', '3'] 1 4 (by decide) (by decide) (by decide)
  · exact (C4_double_colon_expansion ⟨[]⟩).2 [['a', 'b', 'c', 'd']]
      [['1', '0', 'f', 'e'], ['d', 'b', 'c', 'a']] (by decide) (by decide)
      (by decide)

theorem resolveScopeId_zero (os : OsEnv) (name : List Char)
    (h1 : if_nametoindex os name = 0)
    (h2 : ∀ v r, fromCharsNat 10 4294967295 name = some (v, r) →
      ¬(r = [] ∧ v > 0)) :
    resolveScopeId os name = 0 := by
  unfold resolveScopeId
  rw [h1, if_neg (by simp)]
  cases hfc : fromCharsNat 10 4294967295 name with
  | none => rfl
  | some p =>
    obtain ⟨v, r⟩ := p
    show (if r = [] ∧ v > 0 then v else 0) = 0
    rw [if_neg (h2 v r hfc)]

theorem ParseV6_pct_some (os : OsEnv) (s : List Char) (q : Nat) (a : IPAddress)
    (hpct : findCharIdx '%' s = some q) (h : ParseV6 os s = some a) :
    a.IsLinkLocal = true ∧
    a.scope_id = resolveScopeId os (s.drop (q + 1)) ∧
    resolveScopeId os (s.drop (q + 1)) ≠ 0 := by
  unfold ParseV6 at h
  split at h
  · rename_i heq
    rw [hpct] at heq
    exact absurd heq (by simp)
  · rename_i p heq
    rw [hpct] at heq
    injection heq with heq
    subst heq
    dsimp only at h
    split at h
    · exact absurd h (by simp)
    · rename_i hsid
      split at h
      · exact absurd h (by simp)
      · rename_i b hb
        split at h
        · rename_i hl
          cases h
          refine ⟨?_, rfl, hsid⟩
          rw [scope_update_IsLinkLocal]
          exact hl
        · exact absurd h (by simp)

theorem ParseV6_pct_not_ll (os : OsEnv) (s : List Char) (q : Nat)
    (b : IPAddress) (hpct : findCharIdx '%' s = some q)
    (hcore : parseV6core (s.take q) = some b) (hll : b.IsLinkLocal = false) :
    ParseV6 os s = none := by
  unfold ParseV6
  split
  · rename_i heq
    rw [hpct] at heq
    exact absurd heq (by simp)
  · rename_i p heq
    rw [hpct] at heq
    injection heq with heq
    subst heq
    split
    · show (if resolveScopeId os (s.drop (q + 1)) = 0 then none
        else (none : Option IPAddress)) = none
      split
      · rfl
      · rfl
    · rename_i a heq2
      rw [hcore] at heq2
      injection heq2 with heq2
      subst heq2
      show (if resolveScopeId os (s.drop (q + 1)) = 0 then none
        else if b.IsLinkLocal = true then
          some { b with scope_id := resolveScopeId os (s.drop (q + 1)) }
        else none) = none
      split
      · rfl
      · rw [if_neg (by rw [hll]; simp)]

/-! ## C6: zone suffix rules -/

/-- C6: a `%id` suffix whose id neither resolves as an interface name via
the OS (`if_nametoindex`) nor fully parses as a positive decimal number is a
parse error; a successful parse with a `%` suffix yields a link-local
address carrying the resolved (non-zero) scope id; a resolved id attached
to a non-link-local address part is a parse error; in particular
`Parse("fe80::1%invalidscope")` fails when no interface has that name, and
`Parse("::1%lo")` fails on every OS table. -/
theorem C6_zone_suffix (os : OsEnv) :
    (∀ (s : List Char) (p : Nat), findCharIdx '%' s = some p →
      if_nametoindex os (s.drop (p + 1)) = 0 →
      (∀ v r, fromCharsNat 10 4294967295 (s.drop (p + 1)) = some (v, r) →
        ¬(r = [] ∧ v > 0)) →
      ParseV6 os s = none) ∧
    (∀ (s : List Char) (p : Nat) (a : IPAddress), findCharIdx '%' s = some p →
      ParseV6 os s = some a →
      a.IsLinkLocal = true ∧
        a.scope_id = resolveScopeId os (s.drop (p + 1)) ∧ a.scope_id ≠ 0) ∧
    (∀ (s : List Char) (p : Nat) (b : IPAddress), findCharIdx '%' s = some p →
      parseV6core (s.take p) = some b → b.IsLinkLocal = false →
      ParseV6 os s = none) ∧
    ((∀ q ∈ os.ifaces, q.1 ≠ "invalidscope".toList) →
      IPAddress.Parse os "fe80::1%invalidscope".toList = none) ∧
    IPAddress.Parse os "::1%lo".toList = none := by
  refine ⟨?_, ?_, ?_, ?_, ?_⟩
  · intro s p hp h1 h2
    exact ParseV6_pct_none os s p hp (Or.inl (resolveScopeId_zero os _ h1 h2))
  · intro s p a hp h
    obtain ⟨hll, hsc, hnz⟩ := ParseV6_pct_some os s p a hp h
    exact ⟨hll, hsc, by rw [hsc]; exact hnz⟩
  · intro s p b hp hcore hll
    exact ParseV6_pct_not_ll os s p b hp hcore hll
  · intro hno
    have hv4 : ParseV4 "fe80::1%invalidscope".toList = none := by decide
    rw [Parse_eq_ParseV6 os _ hv4]
    apply ParseV6_pct_none os _ 7 (by decide)
    refine Or.inl (resolveScopeId_zero os _ ?_ ?_)
    · unfold if_nametoindex
      have hfind : os.ifaces.find?
          (fun q => decide (q.1 = "fe80::1%invalidscope".toList.drop (7 + 1)))
          = none := by
        rw [List.find?_eq_none]
        intro q hq
        simp only [decide_eq_true_eq]
        intro he
        exact hno q hq (by rw [he]; decide)
      rw [hfind]
    · intro v r hvr
      rw [show fromCharsNat 10 4294967295
        ("fe80::1%invalidscope".toList.drop (7 + 1)) = none from by decide]
        at hvr
      exact absurd hvr (by simp)
  · have hv4 : ParseV4 "::1%lo".toList = none := by decide
    rw [Parse_eq_ParseV6 os _ hv4]
    exact ParseV6_pct_not_ll os _ 3 (mkV6FromHextets [0, 0, 0, 0, 0, 0, 0, 1])
      (by decide) (by decide) (by decide)

theorem C6_zone_suffix_witness :
    ParseV6 ⟨[(['l', 'o'], 1)]⟩ "fe80::1%x".toList = none ∧
    ((⟨.v6, [0xfe, 0x80, 0, 0, 0, 0, 0, 0, 0, 0, 0, 0, 0, 0, 0, 1], 1⟩ :
        IPAddress).IsLinkLocal = true ∧
      (⟨.v6, [0xfe, 0x80, 0, 0, 0, 0, 0, 0, 0, 0, 0, 0, 0, 0, 0, 1], 1⟩ :
        IPAddress).scope_id =
        resolveScopeId ⟨[(['l', 'o'], 1)]⟩ ("fe80::1%lo".toList.drop (7 + 1)) ∧
      (⟨.v6, [0xfe, 0x80, 0, 0, 0, 0, 0, 0, 0, 0, 0, 0, 0, 0, 0, 1], 1⟩ :
        IPAddress).scope_id ≠ 0) ∧
    ParseV6 ⟨[(['l', 'o'], 1)]⟩ "::1%9".toList = none ∧
    IPAddress.Parse ⟨[(['l', 'o'], 1)]⟩ "fe80::1%invalidscope".toList = none := by
  refine ⟨?_, ?_, ?_, ?_⟩
  · exact (C6_zone_suffix ⟨[(['l', 'o'], 1)]⟩).1 "fe80::1%x".toList 7 (by decide)
      (by decide)
      (fun v r hvr => by
        rw [show fromCharsNat 10 4294967295 ("fe80::1%x".toList.drop (7 + 1)) =
          none from by decide] at hvr
        exact absurd hvr (by simp))
  · exact (C6_zone_suffix ⟨[(['l', 'o'], 1)]⟩).2.1 "fe80::1%lo".toList 7
      ⟨.v6, [0xfe, 0x80, 0, 0, 0, 0, 0, 0, 0, 0, 0, 0, 0, 0, 0, 1], 1⟩
      (by decide) (by decide)
  · exact (C6_zone_suffix ⟨[(['l', 'o'], 1)]⟩).2.2.1 "::1%9".toList 3
      (mkV6FromHextets [0, 0, 0, 0, 0, 0, 0, 1]) (by decide) (by decide)
      (by decide)
  · exact (C6_zone_suffix ⟨[(['l', 'o'], 1)]⟩).2.2.2.1 (by decide)

/-! ## C5: endpoint parsing -/

theorem expand_nodc (t : List Char) (hf : findDC t = none) :
    ExpandIPv6DoubleColon t = t := by
  unfold ExpandIPv6DoubleColon
  split
  · rfl
  · rename_i p heq
    rw [hf] at heq
    exact absurd heq (by simp)

theorem expand_rfind_ne (t : List Char) (p j : Nat) (hf : findDC t = some p)
    (hr : rfindDC t = some j) (hne : j ≠ p) : ExpandIPv6DoubleColon t = [] := by
  unfold ExpandIPv6DoubleColon
  split
  · rename_i heq
    rw [hf] at heq
    exact absurd heq (by simp)
  · rename_i p' heq
    rw [hf] at heq
    injection heq with heq
    subst heq
    rw [if_pos (show rfindDC t ≠ some p from by
      rw [hr]
      intro hc
      injection hc with hc
      exact hne hc)]

theorem expand_covering (t : List Char) (p : Nat) (hf : findDC t = some p)
    (hr : rfindDC t = some p) :
    ∀ c ∈ t, c ∈ ExpandIPv6DoubleColon t ∨ c = ':' := by
  have hdc := findDC_spec t p hf
  rw [expand_general t p hf hr]
  intro c hc
  rw [← List.take_append_drop (p + 1) t] at hc
  rcases List.mem_append.mp hc with hc | hc
  · by_cases hp0 : p ≠ 0
    · refine Or.inl (List.mem_append.mpr (Or.inl (List.mem_append.mpr
        (Or.inl ?_))))
      rw [if_pos hp0]
      exact hc
    · have hp0' : p = 0 := by omega
      subst hp0'
      cases t with
      | nil => simp at hc
      | cons x ts =>
        have h0 : x = ':' := by
          have := hdc.1
          rw [List.getElem?_cons_zero] at this
          injection this with this
        rcases hc with _ | ⟨_, hc⟩
        · exact Or.inr h0
        · cases hc
  · by_cases hpl : p ≠ t.length - 2
    · refine Or.inl (List.mem_append.mpr (Or.inr ?_))
      rw [if_pos hpl]
      exact hc
    · have hpl' : p = t.length - 2 := by omega
      obtain ⟨j, hj⟩ := List.mem_iff_getElem?.mp hc
      rw [List.getElem?_drop] at hj
      have hjlt : p + 1 + j < t.length := by
        rw [List.getElem?_eq_some] at hj
        exact hj.1
      have hplt : p + 1 < t.length := by
        have := hdc.2
        rw [List.getElem?_eq_some] at this
        exact this.1
      have hj0 : j = 0 := by omega
      subst hj0
      rw [Nat.add_zero] at hj
      have := hdc.2
      rw [this] at hj
      injection hj with hj
      exact Or.inr hj.symm

theorem parseV6core_chars (t : List Char) (a : IPAddress)
    (h : parseV6core t = some a) :
    ∀ c ∈ t, (digitVal 16 c).isSome = true ∨ c = ':' := by
  unfold parseV6core at h
  cases hx : parseHextets (ExpandIPv6DoubleColon t) with
  | none =>
    rw [hx] at h
    exact absurd h (by simp)
  | some hs =>
    have hchars := parseHextets_chars _ hs hx
    intro c hc
    cases hf : findDC t with
    | none =>
      apply hchars
      rw [expand_nodc t hf]
      exact hc
    | some p =>
      obtain ⟨j, hge, hrs⟩ := dcAt_imp_rfindDC t p (findDC_spec t p hf)
      by_cases hjp : j = p
      · subst hjp
        rcases expand_covering t j hf hrs c hc with hmem | hcol
        · exact hchars c hmem
        · exact Or.inr hcol
      · rw [expand_rfind_ne t p j hf hrs hjp, parseHextets_nil] at hx
        exact absurd hx (by simp)

theorem hexcol_not_ws (c : Char)
    (hcl : (digitVal 16 c).isSome = true ∨ c = ':') :
    c.isWhitespace = false := by
  cases hw : c.isWhitespace
  · rfl
  · rcases hcl with hd | hd
    · rw [ws_not_digit 16 c hw] at hd
      exact absurd hd (by simp)
    · subst hd
      exact absurd hw (by decide)

theorem resolveScopeId_ne_chars (os : OsEnv) (hwf : WFos os)
    (name : List Char) (h : resolveScopeId os name ≠ 0) :
    ∀ c ∈ name, c.isWhitespace = false := by
  by_cases hn : if_nametoindex os name = 0
  · cases hfc : fromCharsNat 10 4294967295 name with
    | none =>
      exact absurd (resolveScopeId_zero os name hn (fun v r hvr => by
        rw [hfc] at hvr
        exact absurd hvr (by simp))) h
    | some q =>
      obtain ⟨v, r⟩ := q
      by_cases hg : r = [] ∧ v > 0
      · obtain ⟨pre, hpne, hsplit, hdig, _, _⟩ :=
          fromCharsNat_some 10 4294967295 name v r hfc
        intro c hc
        rw [hg.1, List.append_nil] at hsplit
        subst hsplit
        cases hw : c.isWhitespace
        · rfl
        · have hwd := ws_not_digit 10 c hw
          have hd := hdig c hc
          rw [hwd] at hd
          exact absurd hd (by simp)
      · exact absurd (resolveScopeId_zero os name hn (fun v' r' hvr => by
          rw [hfc] at hvr
          injection hvr with hvr
          injection hvr with h1 h2
          subst h1
          subst h2
          exact hg)) h
  · unfold if_nametoindex at hn
    cases hfind : os.ifaces.find? (fun q => decide (q.1 = name)) with
    | none =>
      rw [hfind] at hn
      exact absurd rfl hn
    | some q =>
      have hq1 : q.1 = name := by
        have := List.find?_some hfind
        simpa using this
      have hqm : q ∈ os.ifaces := List.mem_of_find?_eq_some hfind
      intro c hc
      exact (hwf q hqm c (hq1.symm ▸ hc)).2

theorem ParseV6_chars_not_ws (os : OsEnv) (hwf : WFos os) (t : List Char)
    (a : IPAddress) (h : ParseV6 os t = some a) :
    ∀ c ∈ t, c.isWhitespace = false := by
  unfold ParseV6 at h
  split at h
  · intro c hc
    exact hexcol_not_ws c (parseV6core_chars t a h c hc)
  · rename_i q heq
    dsimp only at h
    split at h
    · exact absurd h (by simp)
    · rename_i hsid
      split at h
      · exact absurd h (by simp)
      · rename_i b hb
        have hqc : t[q]? = some '%' := findCharIdx_spec t '%' q heq
        have hqlt : q < t.length := (List.getElem?_eq_some.mp hqc).1
        intro c hc
        rw [← List.take_append_drop q t] at hc
        rcases List.mem_append.mp hc with hc | hc
        · exact hexcol_not_ws c (parseV6core_chars _ b hb c hc)
        · rw [List.drop_eq_getElem_cons hqlt] at hc
          rcases hc with _ | ⟨_, hc⟩
          · have hg : t[q] = '%' := (List.getElem?_eq_some.mp hqc).2
            rw [hg]
            decide
          · exact resolveScopeId_ne_chars os hwf _ hsid c hc

theorem fromCharsInt_cons (c : Char) (rest : List Char) :
    fromCharsInt (c :: rest) =
      if c = '-' then
        (if (leadDigits 10 rest).1 = [] then none
         else if digitsVal 10 (leadDigits 10 rest).1 ≤ 2147483648 then
           some (-(digitsVal 10 (leadDigits 10 rest).1 : Int),
             (leadDigits 10 rest).2)
         else none)
      else
        (if (leadDigits 10 (c :: rest)).1 = [] then none
         else if digitsVal 10 (leadDigits 10 (c :: rest)).1 ≤ 2147483647 then
           some ((digitsVal 10 (leadDigits 10 (c :: rest)).1 : Int),
             (leadDigits 10 (c :: rest)).2)
         else none) := rfl

theorem fromCharsInt_some (s : List Char) (v : Int) (r : List Char)
    (h : fromCharsInt s = some (v, r)) :
    ∃ pre, pre ≠ [] ∧ s = pre ++ r ∧
      (∀ c ∈ pre, (digitVal 10 c).isSome = true ∨ c = '-') ∧
      -2147483648 ≤ v ∧ v ≤ 2147483647 := by
  cases s with
  | nil => exact absurd h (by simp [fromCharsInt])
  | cons c rest =>
    rw [fromCharsInt_cons] at h
    by_cases hc : c = '-'
    · subst hc
      rw [if_pos rfl] at h
      split at h
      · exact absurd h (by simp)
      · rename_i hne
        split at h
        · rename_i hle
          injection h with h
          injection h with h1 h2
          obtain ⟨pre2, hsp, hdig, hfm⟩ := leadDigits_decomp 10 rest
          refine ⟨'-' :: pre2, by simp, ?_, ?_, ?_, ?_⟩
          · rw [List.cons_append]
            rw [← h2, ← hsp]
          · intro x hx
            rcases hx with _ | ⟨_, hx⟩
            · exact Or.inr rfl
            · exact Or.inl (hdig x hx)
          · rw [← h1]
            omega
          · rw [← h1]
            omega
        · exact absurd h (by simp)
    · rw [if_neg hc] at h
      split at h
      · exact absurd h (by simp)
      · rename_i hne
        split at h
        · rename_i hle
          injection h with h
          injection h with h1 h2
          obtain ⟨pre2, hsp, hdig, hfm⟩ := leadDigits_decomp 10 (c :: rest)
          have hp2ne : pre2 ≠ [] := by
            intro hnil
            rw [hnil] at hfm
            rw [hfm] at hne
            exact hne rfl
          refine ⟨pre2, hp2ne, ?_, ?_, ?_, ?_⟩
          · rw [← h2, ← hsp]
          · intro x hx
            exact Or.inl (hdig x hx)
          · rw [← h1]
            omega
          · rw [← h1]
            omega
        · exact absurd h (by simp)

theorem getD_some_of_ne (s : List Char) (n : Nat) (x : Char) (hx : x ≠ ' ')
    (h : s.getD n ' ' = x) : s[n]? = some x := by
  rw [List.getD_eq_getElem?_getD] at h
  cases hn : s[n]? with
  | none =>
    rw [hn] at h
    simp at h
    exact absurd h.symm hx
  | some y =>
    rw [hn] at h
    simp at h
    rw [h]

theorem bracket_take (s : List Char) (p : Nat) (hp2 : 2 ≤ p)
    (hs0 : s[0]? = some '[') (hs1 : s[p - 1]? = some ']') :
    s.take p = '[' :: ((s.drop 1).take (p - 2) ++ [']']) := by
  cases s with
  | nil => simp at hs0
  | cons x rest =>
    rw [List.getElem?_cons_zero] at hs0
    injection hs0 with hs0
    subst hs0
    obtain ⟨k, hk⟩ : ∃ k, p = k + 2 := ⟨p - 2, by omega⟩
    subst hk
    rw [show k + 2 - 1 = k + 1 from by omega, List.getElem?_cons_succ] at hs1
    rw [show k + 2 - 2 = k from by omega]
    rw [List.take_succ_cons]
    rw [show ('[' :: rest).drop 1 = rest from rfl]
    rw [List.take_succ, hs1]
    rfl

theorem ParseV4_chars (s : List Char) (a : IPAddress)
    (h : ParseV4 s = some a) :
    ∀ c ∈ s, (digitVal 10 c).isSome = true ∨ c = '.' := by
  unfold ParseV4 at h
  cases hcore : parseV4core s with
  | none =>
    rw [hcore] at h
    exact absurd h (by simp)
  | some t => exact parseV4core_chars s t hcore

theorem IPEndpoint_Parse_some_rfind (os : OsEnv) (s : List Char)
    (e : IPEndpoint) (h : IPEndpoint.Parse os s = some e) :
    ∃ p, rfindCharIdx ':' s = some p := by
  unfold IPEndpoint.Parse at h
  split at h
  · exact absurd h (by simp)
  · rename_i p heq
    exact ⟨p, heq⟩

theorem Parse_none_nocolon (os : OsEnv) (s : List Char)
    (hp : rfindCharIdx ':' s = none) : IPEndpoint.Parse os s = none := by
  unfold IPEndpoint.Parse
  split
  · rfl
  · rename_i p' heq
    rw [hp] at heq
    exact absurd heq (by simp)

theorem Parse_none_p0 (os : OsEnv) (s : List Char)
    (hp : rfindCharIdx ':' s = some 0) : IPEndpoint.Parse os s = none := by
  unfold IPEndpoint.Parse
  split
  · rfl
  · rename_i p' heq
    rw [hp] at heq
    injection heq with heq
    subst heq
    rw [if_pos rfl]

theorem Parse_none_plast (os : OsEnv) (s : List Char) (p : Nat)
    (hp : rfindCharIdx ':' s = some p) (hpl : p = s.length - 1) :
    IPEndpoint.Parse os s = none := by
  unfold IPEndpoint.Parse
  split
  · rfl
  · rename_i p' heq
    rw [hp] at heq
    injection heq with heq
    subst heq
    by_cases hp0 : p = 0
    · rw [if_pos hp0]
    · rw [if_neg hp0, if_pos hpl]

theorem Parse_none_addr (os : OsEnv) (s : List Char) (p : Nat)
    (hp : rfindCharIdx ':' s = some p) (hp0 : p ≠ 0) (hp1 : p ≠ s.length - 1)
    (hA : (if s.getD 0 ' ' = '[' ∧ s.getD (p - 1) ' ' = ']' then
      ParseV6 os ((s.drop 1).take (p - 2)) else ParseV4 (s.take p)) = none) :
    IPEndpoint.Parse os s = none := by
  unfold IPEndpoint.Parse
  split
  · rfl
  · rename_i p' heq
    rw [hp] at heq
    injection heq with heq
    subst heq
    rw [if_neg hp0, if_neg hp1, hA]

theorem Parse_none_port (os : OsEnv) (s : List Char) (p : Nat)
    (hp : rfindCharIdx ':' s = some p) (hp0 : p ≠ 0) (hp1 : p ≠ s.length - 1)
    (a : IPAddress)
    (hA : (if s.getD 0 ' ' = '[' ∧ s.getD (p - 1) ' ' = ']' then
      ParseV6 os ((s.drop 1).take (p - 2)) else ParseV4 (s.take p)) = some a)
    (hfc : fromCharsInt (s.drop (p + 1)) = none) :
    IPEndpoint.Parse os s = none := by
  unfold IPEndpoint.Parse
  split
  · rfl
  · rename_i p' heq
    rw [hp] at heq
    injection heq with heq
    subst heq
    rw [if_neg hp0, if_neg hp1, hA, hfc]

theorem Parse_eq_port (os : OsEnv) (s : List Char) (p : Nat)
    (hp : rfindCharIdx ':' s = some p) (hp0 : p ≠ 0) (hp1 : p ≠ s.length - 1)
    (a : IPAddress)
    (hA : (if s.getD 0 ' ' = '[' ∧ s.getD (p - 1) ' ' = ']' then
      ParseV6 os ((s.drop 1).take (p - 2)) else ParseV4 (s.take p)) = some a)
    (v : Int) (r : List Char)
    (hvr : fromCharsInt (s.drop (p + 1)) = some (v, r)) :
    IPEndpoint.Parse os s =
      if r = [] ∧ 0 ≤ v ∧ v ≤ 65535 then some ⟨a, v.toNat⟩ else none := by
  unfold IPEndpoint.Parse
  split
  · rename_i heq
    rw [hp] at heq
    exact absurd heq (by simp)
  · rename_i p' heq
    rw [hp] at heq
    injection heq with heq
    subst heq
    rw [if_neg hp0, if_neg hp1, hA, hvr]

theorem IPEndpoint_Parse_inv (os : OsEnv) (s : List Char) (e : IPEndpoint)
    (p : Nat) (hp : rfindCharIdx ':' s = some p)
    (h : IPEndpoint.Parse os s = some e) :
    p ≠ 0 ∧ p ≠ s.length - 1 ∧
    ((s.getD 0 ' ' = '[' ∧ s.getD (p - 1) ' ' = ']') ∧
        ParseV6 os ((s.drop 1).take (p - 2)) = some e.address ∨
      ¬(s.getD 0 ' ' = '[' ∧ s.getD (p - 1) ' ' = ']') ∧
        ParseV4 (s.take p) = some e.address) ∧
    ∃ v : Int, fromCharsInt (s.drop (p + 1)) = some (v, []) ∧
      0 ≤ v ∧ v ≤ 65535 ∧ e.port = v.toNat := by
  have hp0 : p ≠ 0 := by
    intro h0
    rw [h0] at hp
    rw [Parse_none_p0 os s hp] at h
    exact absurd h (by simp)
  have hp1 : p ≠ s.length - 1 := by
    intro hpl
    rw [Parse_none_plast os s p hp hpl] at h
    exact absurd h (by simp)
  cases hA : (if s.getD 0 ' ' = '[' ∧ s.getD (p - 1) ' ' = ']' then
      ParseV6 os ((s.drop 1).take (p - 2)) else ParseV4 (s.take p)) with
  | none =>
    rw [Parse_none_addr os s p hp hp0 hp1 hA] at h
    exact absurd h (by simp)
  | some a =>
    cases hfc : fromCharsInt (s.drop (p + 1)) with
    | none =>
      rw [Parse_none_port os s p hp hp0 hp1 a hA hfc] at h
      exact absurd h (by simp)
    | some q =>
      obtain ⟨v, r⟩ := q
      rw [Parse_eq_port os s p hp hp0 hp1 a hA v r hfc] at h
      split at h
      · rename_i hcond
        obtain ⟨hr, hv0, hv1⟩ := hcond
        injection h with h
        subst hr
        subst h
        refine ⟨hp0, hp1, ?_, v, rfl, hv0, hv1, rfl⟩
        by_cases hbr : s.getD 0 ' ' = '[' ∧ s.getD (p - 1) ' ' = ']'
        · rw [if_pos hbr] at hA
          exact Or.inl ⟨hbr, hA⟩
        · rw [if_neg hbr] at hA
          exact Or.inr ⟨hbr, hA⟩
      · exact absurd h (by simp)

/-- C5 counterexample to "the port portion must be all decimal digits":
the port is read by `std::from_chars` into a signed `int`, so a leading
minus sign is consumed; `"1.2.3.4:-0"` parses successfully to port 0 even
though its port portion contains `'-'`, which is not a decimal digit. -/
theorem C5_port_minus_counterexample :
    IPEndpoint.Parse ⟨[]⟩ "1.2.3.4:-0".toList = some ⟨mkV4 1 2 3 4, 0⟩ ∧
    '-' ∈ "1.2.3.4:-0".toList.drop (7 + 1) ∧
    digitVal 10 '-' = none := by decide

/-- C5 (amended): `IPEndpoint::Parse` locates the last `':'` and fails when
it is absent, first, or last; on success the address part is routed to
`ParseV6` on the bracket interior exactly when the input starts with `'['`
and has `']'` immediately before the colon, and to `ParseV4` on the whole
prefix otherwise; the port part is fully consumed by a signed-`int` decimal
read (so its characters are decimal digits or `'-'`) with value in
`[0, 65535]`; under a well-formed OS interface table a successful parse
contains no whitespace anywhere; and the two concrete examples of the spec
behave as claimed. -/
theorem C5_endpoint_rules (os : OsEnv) :
    (∀ s : List Char, rfindCharIdx ':' s = none →
      IPEndpoint.Parse os s = none) ∧
    (∀ s : List Char, rfindCharIdx ':' s = some 0 →
      IPEndpoint.Parse os s = none) ∧
    (∀ s : List Char, rfindCharIdx ':' s = some (s.length - 1) →
      IPEndpoint.Parse os s = none) ∧
    (∀ (s : List Char) (e : IPEndpoint) (p : Nat),
      rfindCharIdx ':' s = some p → IPEndpoint.Parse os s = some e →
      p ≠ 0 ∧ p ≠ s.length - 1 ∧
      ((s.getD 0 ' ' = '[' ∧ s.getD (p - 1) ' ' = ']') ∧
          ParseV6 os ((s.drop 1).take (p - 2)) = some e.address ∨
        ¬(s.getD 0 ' ' = '[' ∧ s.getD (p - 1) ' ' = ']') ∧
          ParseV4 (s.take p) = some e.address) ∧
      e.port ≤ 65535 ∧
      (∃ v : Int, fromCharsInt (s.drop (p + 1)) = some (v, []) ∧
        0 ≤ v ∧ v ≤ 65535 ∧ e.port = v.toNat) ∧
      (∀ c ∈ s.drop (p + 1), (digitVal 10 c).isSome = true ∨ c = '-')) ∧
    (WFos os → ∀ (s : List Char) (e : IPEndpoint),
      IPEndpoint.Parse os s = some e → ∀ c ∈ s, c.isWhitespace = false) ∧
    IPEndpoint.Parse os "[abcd::1]:99".toList =
      some ⟨⟨.v6, [0xab, 0xcd, 0, 0, 0, 0, 0, 0, 0, 0, 0, 0, 0, 0, 0, 1], 0⟩,
        99⟩ ∧
    IPEndpoint.Parse os "abcd::1:8080".toList = none := by
  refine ⟨?_, ?_, ?_, ?_, ?_, ?_, ?_⟩
  · intro s hp
    exact Parse_none_nocolon os s hp
  · intro s hp
    exact Parse_none_p0 os s hp
  · intro s hp
    exact Parse_none_plast os s (s.length - 1) hp rfl
  · intro s e p hp h
    obtain ⟨hp0, hp1, haddr, v, hvr, hv0, hv1, hport⟩ :=
      IPEndpoint_Parse_inv os s e p hp h
    refine ⟨hp0, hp1, haddr, by rw [hport]; omega, ⟨v, hvr, hv0, hv1, hport⟩,
      ?_⟩
    obtain ⟨pre, hpne, hsplit, hdigs, _, _⟩ := fromCharsInt_some _ v [] hvr
    rw [List.append_nil] at hsplit
    rw [hsplit]
    exact hdigs
  · intro hwf s e h c hc
    obtain ⟨p, hp⟩ := IPEndpoint_Parse_some_rfind os s e h
    obtain ⟨hp0, hp1, haddr, v, hvr, hv0, hv1, hport⟩ :=
      IPEndpoint_Parse_inv os s e p hp h
    have hpc : s[p]? = some ':' := rfindCharIdx_spec s ':' p hp
    have hplt : p < s.length := (List.getElem?_eq_some.mp hpc).1
    rw [← List.take_append_drop p s] at hc
    rcases List.mem_append.mp hc with hc | hc
    · rcases haddr with ⟨hbr, hv6⟩ | ⟨hbr, hv4⟩
      · have hs0 : s[0]? = some '[' := getD_some_of_ne s 0 '[' (by decide) hbr.1
        have hs1 : s[p - 1]? = some ']' :=
          getD_some_of_ne s (p - 1) ']' (by decide) hbr.2
        have hp2 : 2 ≤ p := by
          by_contra hlt
          have hpe : p = 1 := by omega
          rw [hpe, show (1 : Nat) - 1 = 0 from rfl, hs0] at hs1
          injection hs1 with hs1
          exact absurd hs1 (by decide)
        rw [bracket_take s p hp2 hs0 hs1] at hc
        rcases hc with _ | ⟨_, hc⟩
        · decide
        · rcases List.mem_append.mp hc with hc | hc
          · exact ParseV6_chars_not_ws os hwf _ e.address hv6 c hc
          · rcases hc with _ | ⟨_, hc⟩
            · decide
            · cases hc
      · have hchars := ParseV4_chars _ e.address hv4
        rcases hchars c hc with hd | hd
        · cases hw : c.isWhitespace
          · rfl
          · rw [ws_not_digit 10 c hw] at hd
            exact absurd hd (by simp)
        · subst hd
          decide
    · rw [List.drop_eq_getElem_cons hplt] at hc
      rcases hc with _ | ⟨_, hc⟩
      · have hg : s[p] = ':' := (List.getElem?_eq_some.mp hpc).2
        rw [hg]
        decide
      · obtain ⟨pre, hpne, hsplit, hdigs, _, _⟩ := fromCharsInt_some _ v [] hvr
        rw [List.append_nil] at hsplit
        rw [hsplit] at hc
        rcases hdigs c hc with hd | hd
        · cases hw : c.isWhitespace
          · rfl
          · rw [ws_not_digit 10 c hw] at hd
            exact absurd hd (by simp)
        · subst hd
          decide
  · rfl
  · rfl

theorem C5_endpoint_rules_witness :
    IPEndpoint.Parse ⟨[]⟩ "noport".toList = none ∧
    IPEndpoint.Parse ⟨[]⟩ ":80".toList = none ∧
    IPEndpoint.Parse ⟨[]⟩ "1.2.3.4:".toList = none ∧
    (⟨mkV4 1 2 3 4, 80⟩ : IPEndpoint).port ≤ 65535 ∧
    (∀ c ∈ "1.2.3.4:80".toList, c.isWhitespace = false) := by
  refine ⟨?_, ?_, ?_, ?_, ?_⟩
  · exact (C5_endpoint_rules ⟨[]⟩).1 _ (by decide)
  · exact (C5_endpoint_rules ⟨[]⟩).2.1 _ (by decide)
  · exact (C5_endpoint_rules ⟨[]⟩).2.2.1 "1.2.3.4:".toList (by decide)
  · exact ((C5_endpoint_rules ⟨[]⟩).2.2.2.1 "1.2.3.4:80".toList
      ⟨mkV4 1 2 3 4, 80⟩ 7 (by decide) (by decide)).2.2.2.1
  · exact (C5_endpoint_rules ⟨[]⟩).2.2.2.2.1 (by decide) "1.2.3.4:80".toList
      ⟨mkV4 1 2 3 4, 80⟩ (by decide)
